import Mathlib

/-!
Verification of the memory-management layer of this repository:
the lstd allocation front end (header codec, `general_allocate`,
`general_reallocate`, `general_free`, debug tracker), the light-std
temporary (bump) allocator, and the cpp-utils pool allocator.

Machine integers are modelled as `Nat` with explicit `% 2 ^ w` at the
points where the C code stores into a fixed-width integer (u16 / u32 /
u64) or where pointer arithmetic can wrap.  Byte memory is modelled as
a total function `Nat → Nat`.
-/

namespace Lstd

/-- Pointer size on the supported 64-bit targets (`POINTER_SIZE`). -/
def POINTER_SIZE : Nat := 8

/-- `NO_MANS_LAND_SIZE` from `allocator.h`: guard bytes before and after the user block. -/
def NO_MANS_LAND_SIZE : Nat := 4

/-- `NO_MANS_LAND_FILL` (0xFD) from `allocator.h`. -/
def NO_MANS_LAND_FILL : Nat := 0xfd

/-- `DEAD_LAND_FILL` (0xDD) from `allocator.h`: freed memory is filled with this. -/
def DEAD_LAND_FILL : Nat := 0xdd

/-- `CLEAN_LAND_FILL` (0xCD) from `allocator.h`: uninitialized memory fill in debug. -/
def CLEAN_LAND_FILL : Nat := 0xcd

/-- Byte memory: address → byte value. -/
abbrev Mem : Type := Nat → Nat

/-- Modelled from the spec: standard byte fill (`fill_memory`; the definition is a
platform primitive not under `src/`).  Writes `v` to `n` bytes starting at `dest`. -/
def fill_memory (m : Mem) (dest v n : Nat) : Mem :=
  fun a => if dest ≤ a ∧ a < dest + n then v else m a

/-- Modelled from the spec: standard byte copy (`copy_memory`; the definition is a
platform primitive not under `src/`).  Copies `n` bytes from `src` to `dest`,
reading from the pre-state (callers in scope use non-overlapping regions). -/
def copy_memory (m : Mem) (dest src n : Nat) : Mem :=
  fun a => if dest ≤ a ∧ a < dest + n then m (src + (a - dest)) else m a

/-- Modelled from the spec: `zero_memory` = fill with zero bytes. -/
def zero_memory (m : Mem) (dest n : Nat) : Mem :=
  fill_memory m dest 0 n

/-- Modelled from the spec: the power-of-two test `is_pow_of_2`
(`x && !(x & (x - 1))`; the definition is not under `src/`). -/
def is_pow_of_2 (x : Nat) : Bool :=
  x != 0 && Nat.land x (x - 1) == 0

/-- `calculate_padding_for_pointer` from `allocator.h`:
`(u16)((((u64) ptr + (alignment - 1)) & -alignment) - (u64) ptr)`.
All intermediate arithmetic is u64 (`% 2 ^ 64`); the result is cast to u16. -/
def calculate_padding_for_pointer (ptr alignment : Nat) : Nat :=
  (Nat.land ((ptr + (alignment - 1)) % 2 ^ 64) ((2 ^ 64 - alignment) % 2 ^ 64)
      + 2 ^ 64 - ptr % 2 ^ 64) % 2 ^ 64 % 2 ^ 16

/-- `calculate_padding_for_pointer_with_header` from `allocator.h`: as above but the
padding is grown by whole multiples of `alignment` until it is at least `headerSize`.
The running `padding` variable is a u16 (`% 2 ^ 16` on the compound assignment). -/
def calculate_padding_for_pointer_with_header (ptr alignment headerSize : Nat) : Nat :=
  let padding := calculate_padding_for_pointer ptr alignment
  if padding < headerSize then
    let hs := headerSize - padding
    if hs % alignment ≠ 0 then
      (padding + alignment * (1 + hs / alignment)) % 2 ^ 16
    else
      (padding + alignment * (hs / alignment)) % 2 ^ 16
  else
    padding

/-- The persistent part of `allocation_header` used by the claims.  The debug
linked-list pointers are modelled separately (see the `Tracker` namespace);
`ID`, `RID`, `FileName`, `FileLine` and `MarkedAsLeak` play no role in any claim
and are omitted.  `Alignment` and `AlignmentPadding` are u16 fields in the source. -/
structure allocation_header where
  Function : Nat
  Context : Nat
  Size : Nat
  Owner : Nat
  DEBUG_Pointer : Nat
  Alignment : Nat
  AlignmentPadding : Nat
  deriving DecidableEq, Repr

/-- Result of `encode_header`: the user pointer, the address the header was
placed at, and the header contents. -/
structure EncodeResult where
  userPtr : Nat
  headerAddr : Nat
  header : allocation_header
  deriving DecidableEq, Repr

/-- `encode_header` from `allocator.cpp` (lines 187–252), parameterised by the
build flag `debug` (`DEBUG_MEMORY`) and by `H = sizeof(allocation_header)`.
`alignmentPadding` is a u32 (`padding - sizeof(allocation_header)` can wrap);
pointer arithmetic is u64.  The user region is zero-filled when `DO_INIT_0`
is passed, otherwise filled with `CLEAN_LAND_FILL` in debug; debug builds also
write the two guard regions. -/
def encode_header (debug : Bool) (H : Nat) (mem : Mem) (p userSize align f c : Nat)
    (doInit0 : Bool) : EncodeResult × Mem :=
  let padding := calculate_padding_for_pointer_with_header p align H
  let alignmentPadding := (padding + 2 ^ 32 - H % 2 ^ 32) % 2 ^ 32
  let headerAddr := (p + alignmentPadding) % 2 ^ 64
  let userPtr := (headerAddr + H) % 2 ^ 64
  let hdr : allocation_header :=
    { Function := f, Context := c, Size := userSize, Owner := 0,
      DEBUG_Pointer := userPtr,
      Alignment := align % 2 ^ 16, AlignmentPadding := alignmentPadding % 2 ^ 16 }
  let mem1 :=
    if doInit0 then zero_memory mem userPtr userSize
    else if debug then fill_memory mem userPtr CLEAN_LAND_FILL userSize
    else mem
  let mem2 :=
    if debug then
      fill_memory (fill_memory mem1 (userPtr - NO_MANS_LAND_SIZE) NO_MANS_LAND_FILL
        NO_MANS_LAND_SIZE) (userPtr + userSize) NO_MANS_LAND_FILL NO_MANS_LAND_SIZE
    else mem1
  (⟨userPtr, headerAddr, hdr⟩, mem2)

/-- `allocator::general_allocate` from `allocator.cpp` (lines 272–318).
`contextAlignment` is `Context.AllocAlignment` (used when `alignment == 0`);
`block` is the raw pointer returned by the owning allocator's ALLOCATE call for
the computed `required` size — it is universally quantified in the theorems.
Returns the encode result, the new memory, and the `required` size passed to
ALLOCATE. -/
def general_allocate (debug : Bool) (H : Nat) (mem : Mem) (contextAlignment f c : Nat)
    (block userSize alignment : Nat) (doInit0 : Bool) : EncodeResult × Mem × Nat :=
  let align1 := if alignment = 0 then contextAlignment else alignment
  let align2 := if align1 < POINTER_SIZE then POINTER_SIZE else align1
  let required := userSize + align2 + H + H % align2
      + (if debug then NO_MANS_LAND_SIZE else 0)
  let encMem := encode_header debug H mem block userSize align2 f c doInit0
  (encMem.1, encMem.2, required)

/-- The tail of `general_reallocate` (lines 401–420): refill the newly exposed
bytes on growth (zero or `CLEAN_LAND_FILL`), `DEAD_LAND_FILL` at `oldSize`
bytes past the header on shrink (debug; line 414 computes this from the
`header` local, which on the move path still points at the OLD header — it is
never reassigned), and rewrite the trailing guard (debug). -/
def realloc_tail (debug : Bool) (mem : Mem) (p headerAddr oldUserSize newUserSize
    oldSize newSize : Nat) (doInit0 : Bool) : Mem :=
  let mem1 :=
    if oldSize < newSize then
      if doInit0 then fill_memory mem (p + oldUserSize) 0 (newSize - oldSize)
      else if debug then fill_memory mem (p + oldUserSize) CLEAN_LAND_FILL (newSize - oldSize)
      else mem
    else
      if debug then fill_memory mem (headerAddr + oldSize) DEAD_LAND_FILL (oldSize - newSize)
      else mem
  if debug then fill_memory mem1 (p + newUserSize) NO_MANS_LAND_FILL NO_MANS_LAND_SIZE
  else mem1

/-- `allocator::general_reallocate` from `allocator.cpp` (lines 320–425).
`hdr` is the header decoded from `ptr` (`(allocation_header *) ptr - 1`);
`resizeOk` is whether the owning allocator's RESIZE succeeded in place
(`newBlock == block`, asserted in the source) — on failure (`null`) the source
ALLOCATEs `newBlock` and moves.  On both paths the shared tail receives the
OLD header address `ptr - H` for the shrink `DEAD_LAND_FILL` (the source's
`header` local at line 414, never reassigned on the move path).  Returns the
new memory, the returned user pointer, and the header contents after the
call. -/
def general_reallocate (debug : Bool) (H : Nat) (mem : Mem) (ptr : Nat)
    (hdr : allocation_header) (newUserSize : Nat) (doInit0 : Bool)
    (resizeOk : Bool) (newBlock : Nat) : Mem × Nat × allocation_header :=
  if hdr.Size = newUserSize then (mem, ptr, hdr)
  else
    let g := if debug then NO_MANS_LAND_SIZE else 0
    let extra := H + hdr.Alignment + H % hdr.Alignment
    let oldUserSize := hdr.Size
    let oldSize := oldUserSize + extra + g
    let newSize := newUserSize + extra + g
    let block := ptr - H - hdr.AlignmentPadding
    if resizeOk then
      let hdr2 := { hdr with Size := newUserSize }
      (realloc_tail debug mem ptr (ptr - H) oldUserSize newUserSize oldSize newSize doInit0,
        ptr, hdr2)
    else
      let encMem := encode_header debug H mem newBlock newUserSize hdr.Alignment
        hdr.Function hdr.Context doInit0
      let enc := encMem.1
      let mem2 := copy_memory encMem.2 enc.userPtr ptr hdr.Size
      let mem3 := if debug then fill_memory mem2 block DEAD_LAND_FILL oldSize else mem2
      (realloc_tail debug mem3 enc.userPtr (ptr - H) oldUserSize newUserSize
          oldSize newSize doInit0,
        enc.userPtr, enc.header)

/-- The first check of `verify_header_unlocked`: the header's bytes all equal
the freed-memory pattern (`compare_memory(header, freedHeader, H) == -1`). -/
def freed_header_check (mem : Mem) (headerAddr H : Nat) : Bool :=
  (List.range H).all fun i => mem (headerAddr + i) == DEAD_LAND_FILL

/-- A guard check of `verify_header_unlocked`: the `NO_MANS_LAND_SIZE` bytes at
`start` all equal `NO_MANS_LAND_FILL`. -/
def guard_check (mem : Mem) (start : Nat) : Bool :=
  (List.range NO_MANS_LAND_SIZE).all fun i => mem (start + i) == NO_MANS_LAND_FILL

/-- `verify_header_unlocked` from `allocator.cpp` (lines 135–164), debug-build
body.  The checks run in source order; the first failing one is the assertion
that fires. -/
def verify_header_unlocked (mem : Mem) (headerAddr : Nat) (hdr : allocation_header)
    (H : Nat) : Except String Unit :=
  if freed_header_check mem headerAddr H then
    .error "Trying to access freed memory!"
  else if hdr.Alignment = 0 then
    .error "Alignment is zero. Definitely corrupted."
  else if hdr.Alignment < POINTER_SIZE then
    .error "Alignment smaller than pointer size. Definitely corrupted."
  else if ¬ is_pow_of_2 hdr.Alignment then
    .error "Alignment not a power of 2. Definitely corrupted."
  else if hdr.DEBUG_Pointer ≠ headerAddr + H then
    .error "Debug pointer doesn't match. They should always match."
  else if ¬ guard_check mem (headerAddr + H - NO_MANS_LAND_SIZE) then
    .error "No man's land was modified. This means that you wrote before the allocated block."
  else if ¬ guard_check mem (hdr.DEBUG_Pointer + hdr.Size) then
    .error "No man's land was modified. This means that you wrote after the allocated block."
  else
    .ok ()

/-- `allocator::general_free` from `allocator.cpp` (lines 427–458), parameterised
by the build flag.  `ptr = none` models a null pointer (early return, no
allocator call).  On success returns the new memory and the list of
`(block, oldSize)` arguments of the FREE calls issued to the owning allocator
(the debug tracker unlink is modelled separately in the `Tracker` namespace). -/
def general_free (debug : Bool) (H : Nat) (mem : Mem) (ptr : Option Nat)
    (hdr : allocation_header) : Except String (Mem × List (Nat × Nat)) :=
  match ptr with
  | none => .ok (mem, [])
  | some ptr =>
    let headerAddr := ptr - H
    match (if debug then verify_header_unlocked mem headerAddr hdr H else .ok ()) with
    | .error e => .error e
    | .ok _ =>
      let extra := hdr.Alignment + H + H % hdr.Alignment
      let size := hdr.Size + extra + (if debug then NO_MANS_LAND_SIZE else 0)
      let block := headerAddr - hdr.AlignmentPadding
      let mem2 := if debug then fill_memory mem block DEAD_LAND_FILL size else mem
      .ok (mem2, [(block, size)])

end Lstd

namespace Tracker

/-- The debug linked-list fields of an `allocation_header`:
`DEBUG_Previous` and `DEBUG_Next` (null = `none`). -/
structure DllNode where
  prev : Option Nat
  next : Option Nat
  deriving DecidableEq, Repr

/-- The headers' debug-list fields, keyed by header address
(`none` = no header object lives there). -/
abbrev NodeMap : Type := Nat → Option DllNode

/-- Update one slot of a node map. -/
def setNode (m : NodeMap) (id : Nat) (nd : DllNode) : NodeMap :=
  fun x => if x = id then some nd else m x

/-- The global debug tracker: `allocator::DEBUG_Head` plus the headers' list fields. -/
structure TrackerState where
  head : Option Nat
  nodes : NodeMap

/-- `encode_header` initialises `DEBUG_Next = DEBUG_Previous = null` on the new
header before it is linked (lines 194–195 of `allocator.cpp`). -/
def encode_node (s : TrackerState) (id : Nat) : TrackerState :=
  { s with nodes := setNode s.nodes id ⟨none, none⟩ }

/-- `allocator::DEBUG_add_header` (lines 31–39): push the header at the front;
`header->DEBUG_Next = Head; if (Head) Head->DEBUG_Previous = header; Head = header`. -/
def add_header (s : TrackerState) (id : Nat) : TrackerState :=
  let n1 := match s.nodes id with
    | some nd => setNode s.nodes id { nd with next := s.head }
    | none => setNode s.nodes id ⟨none, s.head⟩
  let n2 := match s.head with
    | some h =>
      match n1 h with
      | some nd => setNode n1 h { nd with prev := some id }
      | none => n1
    | none => n1
  { head := some id, nodes := n2 }

/-- `allocator::DEBUG_unlink_header` (lines 12–29):
`if (header == Head) Head = header->Next;`
`if (header->Next) header->Next->Previous = header->Previous;`
`if (header->Previous) header->Previous->Next = header->Next;`
The header's own node is left in place (dangling), as in the source. -/
def unlink_header (s : TrackerState) (id : Nat) : TrackerState :=
  match s.nodes id with
  | none => s
  | some nd =>
    let head2 := if s.head = some id then nd.next else s.head
    let n1 := match nd.next with
      | some nx =>
        match s.nodes nx with
        | some nxnd => setNode s.nodes nx { nxnd with prev := nd.prev }
        | none => s.nodes
      | none => s.nodes
    let n2 := match nd.prev with
      | some pv =>
        match n1 pv with
        | some pvnd => setNode n1 pv { pvnd with next := nd.next }
        | none => n1
      | none => n1
    { head := head2, nodes := n2 }

/-- `allocator::DEBUG_swap_header` (lines 40–58), with the new header's node
freshly initialised to `⟨none, none⟩` by `encode_header` (as on the
reallocate-move path):
`if (prev) { prev->Next = new; new->Previous = prev; } else Head = new;`
`if (next) { next->Previous = new; new->Next = next; }` -/
def swap_header (s : TrackerState) (oldId newId : Nat) : TrackerState :=
  match s.nodes oldId with
  | none => s
  | some nd =>
    let s1 := encode_node s newId
    let n0 := s1.nodes
    let (head2, n1) := match nd.prev with
      | some pv =>
        let na := match n0 pv with
          | some pvnd => setNode n0 pv { pvnd with next := some newId }
          | none => n0
        let nb := match na newId with
          | some newnd => setNode na newId { newnd with prev := some pv }
          | none => na
        (s.head, nb)
      | none => (some newId, n0)
    let n2 := match nd.next with
      | some nx =>
        let na := match n1 nx with
          | some nxnd => setNode n1 nx { nxnd with prev := some newId }
          | none => n1
        let nb := match na newId with
          | some newnd => setNode na newId { newnd with next := some nx }
          | none => na
        nb
      | none => n1
    { head := head2, nodes := n2 }

/-- The tracker-relevant events of the front end: `general_allocate` links a
fresh header; `general_free` unlinks it; a moving `general_reallocate` swaps the
old header for the new one (an in-place resize touches the list not at all). -/
inductive AllocOp where
  | alloc (id : Nat)
  | free (id : Nat)
  | reallocMove (oldId newId : Nat)
  deriving DecidableEq, Repr

/-- Run a sequence of front-end events against the tracker, exactly as the
source does: allocate = `encode_header` init then `DEBUG_add_header`; free =
`DEBUG_unlink_header`; moving reallocate = `encode_header` init then
`DEBUG_swap_header`. -/
def runOps : List AllocOp → TrackerState → TrackerState
  | [], s => s
  | .alloc id :: rest, s => runOps rest (add_header (encode_node s id) id)
  | .free id :: rest, s => runOps rest (unlink_header s id)
  | .reallocMove oldId newId :: rest, s => runOps rest (swap_header s oldId newId)

/-- Number of `alloc` events. -/
def countAllocs : List AllocOp → Nat
  | [] => 0
  | .alloc _ :: rest => countAllocs rest + 1
  | _ :: rest => countAllocs rest

/-- Number of `free` events. -/
def countFrees : List AllocOp → Nat
  | [] => 0
  | .free _ :: rest => countFrees rest + 1
  | _ :: rest => countFrees rest

/-- Validity of an event sequence against the list `l` of currently linked
headers (most recent first): allocations use fresh header addresses, frees and
reallocations target linked headers, and a moving reallocation's new header is
fresh. -/
def validOps : List AllocOp → List Nat → Bool
  | [], _ => true
  | .alloc id :: rest, l => !l.contains id && validOps rest (id :: l)
  | .free id :: rest, l => l.contains id && validOps rest (l.erase id)
  | .reallocMove oldId newId :: rest, l =>
      l.contains oldId && !l.contains newId && (oldId != newId)
        && validOps rest (l.map fun x => if x = oldId then newId else x)

/-- `chain nodes h p l`: starting from pointer `h`, whose predecessor is `p`,
the doubly-linked list spells out exactly the headers `l`. -/
inductive chain (nodes : NodeMap) : Option Nat → Option Nat → List Nat → Prop
  | nil (p : Option Nat) : chain nodes none p []
  | cons (id : Nat) (p nx : Option Nat) (l : List Nat)
      (hid : nodes id = some ⟨p, nx⟩) (htail : chain nodes nx (some id) l) :
      chain nodes (some id) p (id :: l)

/-- Partial traversal: starting from pointer `h` whose predecessor is `p`,
following `next` pointers spells out exactly `l` and leaves the walk at
pointer `m` with predecessor `q`. -/
inductive chainTo (nodes : NodeMap) :
    Option Nat → Option Nat → List Nat → Option Nat → Option Nat → Prop
  | nil (h p : Option Nat) : chainTo nodes h p [] h p
  | cons (id : Nat) (p nx m q : Option Nat) (l : List Nat)
      (hid : nodes id = some ⟨p, nx⟩) (htail : chainTo nodes nx (some id) l m q) :
      chainTo nodes (some id) p (id :: l) m q

end Tracker

namespace Temp

/-- One page of `temporary_allocator_data` (light-std `allocator.h`):
used and reserved byte counters.  The storage base address is irrelevant to the
claims; an allocation is identified by (page index, offset into the page). -/
structure Page where
  Used : Nat
  Reserved : Nat
  deriving DecidableEq, Repr, Inhabited

/-- `temporary_allocator_data`: the base page followed by the chain of overflow
pages (`Base :: overflow`), plus the cumulative `TotalUsed` counter. -/
structure TempData where
  Pages : List Page
  TotalUsed : Nat
  deriving DecidableEq, Repr

/-- Doubling loop computing the least power of two ≥ `x` that is reachable
within `fuel` doublings of `acc`. -/
def cp2_fuel (x : Nat) : Nat → Nat → Nat
  | 0, acc => acc
  | fuel + 1, acc => if x ≤ acc then acc else cp2_fuel x fuel (acc * 2)

/-- Modelled from the spec: `ceil_pow_of_2` = `next_pow2`, the least power of two
that is ≥ the argument (its definition is in a common header not under `src/`).
`fuel = x` always suffices since `x ≤ 2 ^ x`. -/
def ceil_pow_of_2 (x : Nat) : Nat := cp2_fuel x x 1

/-- `(x + 8_KiB - 1) & -8_KiB` in `size_t` arithmetic: round up to a multiple of
8 KiB (light-std `allocator.cpp`, lines 86 and 107). -/
def round_up_8KiB (x : Nat) : Nat :=
  Nat.land ((x + 8192 - 1) % 2 ^ 64) (2 ^ 64 - 8192)

/-- The page-walk loop of the temporary allocator's ALLOCATE (lines 95–98):
`while (p->Next) { if (p->Used + size < p->Reserved) break; p = p->Next; }`.
Returns the index of the page the loop stops at — the first page with room
among those that have a successor, else the last page. -/
def walk : List Page → Nat → Nat
  | [], _ => 0
  | [_], _ => 0
  | p :: rest, size => if p.Used + size < p.Reserved then 0 else walk rest size + 1

/-- The overflow-page size computation (lines 104–107).  The floating-point
growth heuristic `(size_t) ceil(p->Reserved * (log2(p->Reserved * 10.0) / 3))`
is abstracted as the parameter `g` applied to `p->Reserved`; every theorem below
holds for an arbitrary `g`, so nothing depends on its value:
`(max(ceil_pow_of_2(size * 2), ceil_pow_of_2(loggedSize)) + 8_KiB - 1) & -8_KiB`. -/
def reserve_target (g : Nat → Nat) (lastReserved size : Nat) : Nat :=
  round_up_8KiB (max (ceil_pow_of_2 (size * 2)) (ceil_pow_of_2 (g lastReserved)))

/-- `temporary_allocator` ALLOCATE from light-std `allocator.cpp` (lines 83–120),
including the lazy base-page initialisation (lines 85–89).  Returns the new
state and the allocation's (page index, offset into that page). -/
def temp_allocate (g : Nat → Nat) (d : TempData) (size : Nat) : TempData × Nat × Nat :=
  let d :=
    if (d.Pages.headD default).Reserved = 0 then
      let startingSize := round_up_8KiB (size * 2)
      { d with Pages := [{ (d.Pages.headD default) with Reserved := startingSize }] }
    else d
  let pages := d.Pages
  let i := walk pages size
  let p := pages.getD i default
  if p.Reserved ≤ p.Used + size then
    let r := reserve_target g p.Reserved size
    ({ Pages := pages ++ [⟨size, r⟩], TotalUsed := d.TotalUsed + size },
      pages.length, 0)
  else
    ({ Pages := pages.set i { p with Used := p.Used + size },
       TotalUsed := d.TotalUsed + size },
      i, p.Used)

/-- `temporary_allocator` FREE_ALL (lines 132–159): sum every page's capacity
into `targetSize`, delete the overflow pages, grow the base page to
`targetSize` if any overflow page existed, zero the counters. -/
def temp_free_all (d : TempData) : TempData :=
  let base := d.Pages.headD default
  let targetSize := d.Pages.foldl (fun acc p => acc + p.Reserved) 0
  let base2 := if targetSize ≠ base.Reserved
    then { Used := 0, Reserved := targetSize }
    else { base with Used := 0 }
  { Pages := [base2], TotalUsed := 0 }

end Temp

namespace Gu

/-- The raw-memory source backing the pool (`New<u8>` / `Delete` through the
pool's `BlockAllocator`): blocks are numbered by a fresh counter, `live` is the
list of currently allocated block ids. -/
structure Heap where
  nextId : Nat
  live : List Nat
  deriving DecidableEq, Repr

/-- `New<u8>(size)`: allocate a fresh block (its size plays no role in the
claims, only its identity). -/
def heap_new (h : Heap) : Heap × Nat :=
  (⟨h.nextId + 1, h.nextId :: h.live⟩, h.nextId)

/-- `Delete(block)`: release a block. -/
def heap_delete (h : Heap) (b : Nat) : Heap :=
  ⟨h.nextId, h.live.erase b⟩

/-- `Pool` from cpp-utils `pool.h`.  `Dynamic_Array<u8 *>` becomes a `List` of
block ids (`add` appends, `pop` drops the last element; `Count` is the length).
`CurrentPosition` is the cursor's offset inside `CurrentMemblock` (the source
keeps the absolute pointer `CurrentMemblock + offset`). -/
structure Pool where
  BlockSize : Nat
  Alignment : Nat
  UnusedMemblocks : List Nat
  UsedMemblocks : List Nat
  ObsoletedMemblocks : List Nat
  CurrentMemblock : Option Nat
  CurrentPosition : Nat
  BytesLeft : Nat
  deriving DecidableEq, Repr

/-- A fresh pool with the given nominal block size and alignment; the remaining
fields take the defaults from `pool.h`. -/
def freshPool (blockSize alignment : Nat) : Pool :=
  { BlockSize := blockSize, Alignment := alignment,
    UnusedMemblocks := [], UsedMemblocks := [], ObsoletedMemblocks := [],
    CurrentMemblock := none, CurrentPosition := 0, BytesLeft := 0 }

/-- `resize_blocks` from `pool.cpp` (lines 5–14): set the new nominal size,
obsolete the current block and every used block, clear both. -/
def resize_blocks (pool : Pool) (blockSize : Nat) : Pool :=
  let obs1 := match pool.CurrentMemblock with
    | some c => pool.ObsoletedMemblocks ++ [c]
    | none => pool.ObsoletedMemblocks
  { pool with
    BlockSize := blockSize,
    ObsoletedMemblocks := obs1 ++ pool.UsedMemblocks,
    CurrentMemblock := none,
    UsedMemblocks := [] }

/-- `cycle_new_block` from `pool.cpp` (lines 16–30): retire the current block to
Used, take a new current block from the back of Unused if possible, else
allocate fresh raw memory of `BlockSize` bytes. -/
def cycle_new_block (pool : Pool) (heap : Heap) : Pool × Heap :=
  let used1 := match pool.CurrentMemblock with
    | some c => pool.UsedMemblocks ++ [c]
    | none => pool.UsedMemblocks
  let step :=
    if pool.UnusedMemblocks ≠ [] then
      (pool.UnusedMemblocks.dropLast, heap, pool.UnusedMemblocks.getLastD 0)
    else
      (pool.UnusedMemblocks, (heap_new heap).1, (heap_new heap).2)
  ({ pool with
      UsedMemblocks := used1,
      UnusedMemblocks := step.1,
      BytesLeft := pool.BlockSize,
      CurrentPosition := 0,
      CurrentMemblock := some step.2.2 },
    step.2.1)

/-- The `while (bs < size) bs *= 2;` loop of `ensure_memory_exists`, with a fuel
argument that only pads out termination (`fuel = size` always suffices for
`0 < bs`; for `bs = 0` the C loop would not terminate either). -/
def grow_bs_fuel : Nat → Nat → Nat → Nat
  | 0, bs, _ => bs
  | fuel + 1, bs, size => if bs < size then grow_bs_fuel fuel (bs * 2) size else bs

/-- Doubling loop of `ensure_memory_exists` (lines 33–37): the least value of
the form `BlockSize * 2 ^ t` that is ≥ `size`. -/
def grow_bs (bs size : Nat) : Nat := grow_bs_fuel size bs size

/-- `ensure_memory_exists` from `pool.cpp` (lines 32–41): double the nominal
block size until the request fits, resize the blocks if it grew, cycle in a new
current block. -/
def ensure_memory_exists (pool : Pool) (heap : Heap) (size : Nat) : Pool × Heap :=
  let bs := grow_bs pool.BlockSize size
  let pool1 := if pool.BlockSize < bs then resize_blocks pool bs else pool
  cycle_new_block pool1 heap

/-- `get` from `pool.cpp` (lines 43–53).  Returns the new pool and heap and the
returned pointer as (block id, offset inside the block). -/
def get (pool : Pool) (heap : Heap) (size : Nat) : Pool × Heap × Nat × Nat :=
  let extra := pool.Alignment - size % pool.Alignment
  let size := size + extra
  let step :=
    if pool.BytesLeft < size then ensure_memory_exists pool heap size
    else (pool, heap)
  let pool1 := step.1
  let ret := (pool1.CurrentMemblock.getD 0, pool1.CurrentPosition)
  ({ pool1 with
      CurrentPosition := pool1.CurrentPosition + size,
      BytesLeft := pool1.BytesLeft - size },
    step.2, ret)

/-- `reset` from `pool.cpp` (lines 55–72): move Current and Used to Unused, free
the Obsoleted blocks, cycle in a fresh current block. -/
def reset (pool : Pool) (heap : Heap) : Pool × Heap :=
  let unused1 := match pool.CurrentMemblock with
    | some c => pool.UnusedMemblocks ++ [c]
    | none => pool.UnusedMemblocks
  let heap1 := pool.ObsoletedMemblocks.foldl heap_delete heap
  let pool1 := { pool with
    CurrentMemblock := none,
    UnusedMemblocks := unused1 ++ pool.UsedMemblocks,
    UsedMemblocks := [],
    ObsoletedMemblocks := [] }
  cycle_new_block pool1 heap1

/-- `release` from `pool.cpp` (lines 74–80): `reset`, then free every block in
Unused.  Note: the Unused list itself is NOT cleared (its `Count` stays), and
the current block cycled in by `reset` is NOT freed. -/
def release (pool : Pool) (heap : Heap) : Pool × Heap :=
  let step := reset pool heap
  (step.1, step.1.UnusedMemblocks.foldl heap_delete step.2)

/-- `Allocator_Mode` from the cpp-utils protocol. -/
inductive Allocator_Mode where
  | ALLOCATE
  | RESIZE
  | FREE
  | FREE_ALL
  deriving DecidableEq, Repr

/-- Result of one `__pool_allocator` call.  `returned` is the returned `void *`
(`none` = null); `copies` records the `(dest, src, num)` arguments of the
`CopyMemory` calls made (`CopyMemory(void *dest, void const *src, size_t num)`
per cpp-utils `memory.cpp` — note the RESIZE case passes `oldMemory` as `dest`). -/
structure PoolCallResult where
  pool : Pool
  heap : Heap
  returned : Option (Nat × Nat)
  copies : List ((Nat × Nat) × (Nat × Nat) × Nat)
  deriving DecidableEq, Repr

/-- `__pool_allocator` from `pool.cpp` (lines 82–103).  Pointers are (block id,
offset) pairs; `oldMemory` is the caller's old pointer. -/
def pool_allocator (pool : Pool) (heap : Heap) (mode : Allocator_Mode) (size : Nat)
    (oldMemory : Option (Nat × Nat)) (oldSize : Nat) : PoolCallResult :=
  match mode with
  | .ALLOCATE =>
    let step := get pool heap size
    ⟨step.1, step.2.1, some step.2.2, []⟩
  | .RESIZE =>
    let step := get pool heap size
    ⟨step.1, step.2.1, some step.2.2, [(oldMemory.getD (0, 0), step.2.2, oldSize)]⟩
  | .FREE => ⟨pool, heap, none, []⟩
  | .FREE_ALL =>
    let step := reset pool heap
    ⟨step.1, step.2, none, []⟩

/-- The current block as a (zero- or one-element) list. -/
def currentList (pool : Pool) : List Nat :=
  match pool.CurrentMemblock with
  | some c => [c]
  | none => []

/-- Well-formedness of a pool against its backing heap: the heap's live blocks
are exactly the blocks the pool tracks (current, used, obsoleted and unused, in
any order), no block is tracked twice, and every live block id is below the
heap's fresh-id counter. -/
def poolWf (pool : Pool) (heap : Heap) : Prop :=
  heap.live.Perm (currentList pool ++ pool.UsedMemblocks
    ++ pool.ObsoletedMemblocks ++ pool.UnusedMemblocks)
  ∧ heap.live.Nodup
  ∧ ∀ b ∈ heap.live, b < heap.nextId

end Gu

/-!  ## Helper lemmas  -/

/-- For a power-of-two divisor, the C idiom `x & -2^k` (in 64-bit arithmetic)
rounds `x` down to a multiple of `2^k`. -/
theorem land_mask_eq_div_mul (x k : Nat) (hk : k ≤ 64) (hx : x < 2 ^ 64) :
    Nat.land x (2 ^ 64 - 2 ^ k) = x / 2 ^ k * 2 ^ k := by
  have hmask : 2 ^ 64 - 2 ^ k = (2 ^ (64 - k) - 1) <<< k := by
    rw [Nat.shiftLeft_eq, Nat.sub_mul, ← Nat.pow_add, Nat.sub_add_cancel hk, one_mul]
  have hrhs : x / 2 ^ k * 2 ^ k = (x >>> k) <<< k := by
    rw [Nat.shiftRight_eq_div_pow, Nat.shiftLeft_eq]
  show x &&& (2 ^ 64 - 2 ^ k) = x / 2 ^ k * 2 ^ k
  rw [hmask, hrhs]
  apply Nat.eq_of_testBit_eq
  intro i
  rw [Nat.testBit_and, Nat.testBit_shiftLeft, Nat.testBit_shiftLeft, Nat.testBit_shiftRight,
    Nat.testBit_two_pow_sub_one]
  by_cases hki : k ≤ i
  · have hadd : k + (i - k) = i := by omega
    rw [decide_eq_true hki, hadd]
    by_cases hi : i < 64
    · have h2 : i - k < 64 - k := by omega
      simp [h2]
    · have h1 : x.testBit i = false := by
        apply Nat.testBit_lt_two_pow
        exact lt_of_lt_of_le hx (Nat.pow_le_pow_right (by norm_num) (by omega))
      have h2 : ¬(i - k < 64 - k) := by omega
      simp [h1, h2]
  · simp [hki]

/-- Rounding `x` up to a multiple of `a` (`(x + (a-1)) / a * a`) adds exactly
`(a - x % a) % a`. -/
theorem roundup_div_mul (x a : Nat) (ha : 0 < a) :
    (x + (a - 1)) / a * a = x + (a - x % a) % a := by
  obtain ⟨q, r, hr, hx⟩ : ∃ q r, r < a ∧ x = a * q + r :=
    ⟨x / a, x % a, Nat.mod_lt _ ha, (Nat.div_add_mod x a).symm⟩
  subst hx
  have hmod : (a * q + r) % a = r := by
    rw [Nat.mul_add_mod, Nat.mod_eq_of_lt hr]
  rw [hmod]
  rcases Nat.eq_zero_or_pos r with h0 | h0
  · subst h0
    have hdiv : (a * q + 0 + (a - 1)) / a = q := by
      rw [Nat.add_zero, Nat.mul_add_div ha, Nat.div_eq_of_lt (by omega), Nat.add_zero]
    rw [hdiv, Nat.sub_zero, Nat.mod_self, Nat.add_zero, Nat.mul_comm]
  · have hexp : a * (q + 1) = a * q + a := by ring
    have harr : a * q + r + (a - 1) = a * (q + 1) + (r - 1) := by omega
    have hdiv : (a * q + r + (a - 1)) / a = q + 1 := by
      rw [harr, Nat.mul_add_div ha, Nat.div_eq_of_lt (by omega), Nat.add_zero]
    rw [hdiv, Nat.mod_eq_of_lt (show a - r < a by omega)]
    have hq : (q + 1) * a = a * q + a := by ring
    omega

namespace Lstd

/-- For a power-of-two alignment in the supported range and a non-wrapping
pointer, `calculate_padding_for_pointer` computes `(a - ptr % a) % a`. -/
theorem calc_padding_eq (ptr k : Nat) (hk : k ≤ 13)
    (hp64 : ptr + 2 ^ k ≤ 2 ^ 64) :
    calculate_padding_for_pointer ptr (2 ^ k) = (2 ^ k - ptr % 2 ^ k) % 2 ^ k := by
  have ha1 : 0 < 2 ^ k := Nat.pos_pow_of_pos k (by norm_num)
  have hka : (2 : Nat) ^ k ≤ 2 ^ 13 := Nat.pow_le_pow_right (by norm_num) hk
  have hlt64 : ptr + (2 ^ k - 1) < 2 ^ 64 := by omega
  have hm1 : (ptr + (2 ^ k - 1)) % 2 ^ 64 = ptr + (2 ^ k - 1) := Nat.mod_eq_of_lt hlt64
  have hm2 : (2 ^ 64 - 2 ^ k) % 2 ^ 64 = 2 ^ 64 - 2 ^ k := by
    apply Nat.mod_eq_of_lt
    have : (0 : Nat) < 2 ^ 64 := by norm_num
    omega
  have hland := land_mask_eq_div_mul (ptr + (2 ^ k - 1)) k (by omega) hlt64
  have hround := roundup_div_mul ptr (2 ^ k) ha1
  have hmodlt : (2 ^ k - ptr % 2 ^ k) % 2 ^ k < 2 ^ k := Nat.mod_lt _ ha1
  have hp : ptr % 2 ^ 64 = ptr := Nat.mod_eq_of_lt (by omega)
  unfold calculate_padding_for_pointer
  rw [hm1, hm2, hland, hround, hp]
  have h1 : ptr + (2 ^ k - ptr % 2 ^ k) % 2 ^ k + 2 ^ 64 - ptr
      = (2 ^ k - ptr % 2 ^ k) % 2 ^ k + 2 ^ 64 := by omega
  rw [h1, Nat.add_mod_right, Nat.mod_eq_of_lt (show _ < 2 ^ 64 by omega),
    Nat.mod_eq_of_lt (show _ < 2 ^ 16 by omega)]

/-- `calculate_padding_for_pointer_with_header` in the supported range: the
padding is at least the header size, less than header size + alignment, and
lands the post-padding pointer on an alignment boundary. -/
theorem padding_wh_spec (ptr k H : Nat) (hk : k ≤ 13) (hH : 0 < H)
    (hH16 : H + 2 ^ k ≤ 2 ^ 16) (hp64 : ptr + 2 ^ k ≤ 2 ^ 64) :
    H ≤ calculate_padding_for_pointer_with_header ptr (2 ^ k) H ∧
    calculate_padding_for_pointer_with_header ptr (2 ^ k) H < H + 2 ^ k ∧
    (ptr + calculate_padding_for_pointer_with_header ptr (2 ^ k) H) % 2 ^ k = 0 := by
  have ha1 : 0 < 2 ^ k := Nat.pos_pow_of_pos k (by norm_num)
  have hka : (2 : Nat) ^ k ≤ 2 ^ 13 := Nat.pow_le_pow_right (by norm_num) hk
  have hp0 := calc_padding_eq ptr k hk hp64
  set a := 2 ^ k with hadef
  set p0 := (a - ptr % a) % a with hp0def
  have hp0lt : p0 < a := Nat.mod_lt _ ha1
  have hptrp0 : (ptr + p0) % a = 0 := by
    rcases Nat.eq_zero_or_pos (ptr % a) with hr | hr
    · have : p0 = 0 := by
        rw [hp0def, hr, Nat.sub_zero, Nat.mod_self]
      rw [this, Nat.add_zero, hr]
    · have hrlt : ptr % a < a := Nat.mod_lt _ ha1
      have : p0 = a - ptr % a := by
        rw [hp0def]
        exact Nat.mod_eq_of_lt (by omega)
      rw [this, Nat.add_mod, Nat.mod_eq_of_lt (show a - ptr % a < a by omega)]
      have harr : ptr % a + (a - ptr % a) = a := by omega
      rw [harr, Nat.mod_self]
  unfold calculate_padding_for_pointer_with_header
  rw [hp0]
  simp only [← hp0def, ← hadef]
  by_cases hcase : p0 < H
  · simp only [if_pos hcase]
    set hs := H - p0 with hsdef
    have hsplit := Nat.div_add_mod hs a
    have hmlt : hs % a < a := Nat.mod_lt _ ha1
    by_cases hz : hs % a = 0
    · simp only [hz, ne_eq, not_true_eq_false, if_false, ite_false]
      have hval : p0 + a * (hs / a) = H := by omega
      rw [hval, Nat.mod_eq_of_lt (by omega)]
      refine ⟨le_refl _, by omega, ?_⟩
      have : ptr + H = ptr + p0 + a * (hs / a) := by omega
      rw [this, Nat.add_mul_mod_self_left, hptrp0]
    · simp only [ne_eq, hz, not_false_eq_true, if_true, ite_true]
      have hval : p0 + a * (1 + hs / a) = p0 + a + a * (hs / a) := by ring_nf
      have hlt : p0 + a * (1 + hs / a) < H + a := by omega
      have hge : H ≤ p0 + a * (1 + hs / a) := by omega
      rw [Nat.mod_eq_of_lt (by omega)]
      refine ⟨hge, hlt, ?_⟩
      have : ptr + (p0 + a * (1 + hs / a)) = ptr + p0 + a * (1 + hs / a) := by omega
      rw [this, Nat.add_mul_mod_self_left, hptrp0]
  · simp only [if_neg hcase]
    exact ⟨by omega, by omega, hptrp0⟩

/-- Address arithmetic of `encode_header` in the supported range: the user
pointer sits `padding` bytes after the raw block, the header immediately
before the user pointer, and the header stores the requested size, the
alignment, and the alignment padding. -/
theorem encode_header_spec (debug : Bool) (H : Nat) (mem : Mem)
    (p userSize k f c : Nat) (doInit0 : Bool) (hk : k ≤ 13) (hH : 0 < H)
    (hH16 : H + 2 ^ k ≤ 2 ^ 16) (hp64 : p + 2 ^ 16 ≤ 2 ^ 64) :
    (encode_header debug H mem p userSize (2 ^ k) f c doInit0).1.userPtr
        = p + calculate_padding_for_pointer_with_header p (2 ^ k) H
    ∧ (encode_header debug H mem p userSize (2 ^ k) f c doInit0).1.headerAddr
        = p + (calculate_padding_for_pointer_with_header p (2 ^ k) H - H)
    ∧ (encode_header debug H mem p userSize (2 ^ k) f c doInit0).1.headerAddr + H
        = (encode_header debug H mem p userSize (2 ^ k) f c doInit0).1.userPtr
    ∧ (encode_header debug H mem p userSize (2 ^ k) f c doInit0).1.header.Size = userSize
    ∧ (encode_header debug H mem p userSize (2 ^ k) f c doInit0).1.header.Alignment = 2 ^ k
    ∧ (encode_header debug H mem p userSize (2 ^ k) f c doInit0).1.header.AlignmentPadding
        = calculate_padding_for_pointer_with_header p (2 ^ k) H - H := by
  have hka : (2 : Nat) ^ k ≤ 2 ^ 13 := Nat.pow_le_pow_right (by norm_num) hk
  obtain ⟨hge, hlt, _⟩ := padding_wh_spec p k H hk hH hH16 (by omega)
  set pwh := calculate_padding_for_pointer_with_header p (2 ^ k) H with hpwh
  have hH32 : H % 2 ^ 32 = H := Nat.mod_eq_of_lt (by omega)
  have hap : (pwh + 2 ^ 32 - H % 2 ^ 32) % 2 ^ 32 = pwh - H := by
    rw [hH32]
    have h1 : pwh + 2 ^ 32 - H = (pwh - H) + 2 ^ 32 := by omega
    rw [h1, Nat.add_mod_right, Nat.mod_eq_of_lt (by omega)]
  have hha : (p + (pwh - H)) % 2 ^ 64 = p + (pwh - H) := Nat.mod_eq_of_lt (by omega)
  have hup : (p + (pwh - H) + H) % 2 ^ 64 = p + pwh := by
    rw [Nat.mod_eq_of_lt (by omega)]
    omega
  have halign : 2 ^ k % 2 ^ 16 = 2 ^ k := Nat.mod_eq_of_lt (by omega)
  have hap16 : (pwh - H) % 2 ^ 16 = pwh - H := Nat.mod_eq_of_lt (by omega)
  unfold encode_header
  dsimp only
  rw [← hpwh, hap, hha, hup]
  exact ⟨rfl, rfl, by omega, rfl, halign, hap16⟩

end Lstd

/-!  ## Front-end allocate / free claims  -/

/-- Shared unfolding of `general_allocate` for an explicit power-of-two
alignment `2 ^ k` with `k ≥ 3` (so neither the context-default branch nor the
pointer-size clamp fires). -/
theorem general_allocate_unfold (debug : Bool) (H : Nat) (mem : Lstd.Mem)
    (ca f c block s k : Nat) (doInit0 : Bool) (hk3 : 3 ≤ k) :
    Lstd.general_allocate debug H mem ca f c block s (2 ^ k) doInit0
      = ((Lstd.encode_header debug H mem block s (2 ^ k) f c doInit0).1,
         (Lstd.encode_header debug H mem block s (2 ^ k) f c doInit0).2,
         s + 2 ^ k + H + H % 2 ^ k + (if debug then Lstd.NO_MANS_LAND_SIZE else 0)) := by
  have h0 : (2 ^ k : Nat) ≠ 0 := by positivity
  have h3 : (2 : Nat) ^ 3 ≤ 2 ^ k := Nat.pow_le_pow_right (by norm_num) hk3
  have h8 : ¬ ((2 : Nat) ^ k < Lstd.POINTER_SIZE) := by
    unfold Lstd.POINTER_SIZE
    norm_num at h3 ⊢
    omega
  unfold Lstd.general_allocate
  dsimp only
  rw [if_neg h0, if_neg h8]

/-- C1 (amended): for every user size `s`, every power-of-two alignment
`2 ^ k` with pointer size ≤ `2 ^ k` ≤ the documented maximum of 8192 bytes
(the header stores the alignment and the padding in u16 fields), and every
raw block the owning allocator returns, `general_allocate` produces a user
pointer `p` with `p mod 2 ^ k = 0` whose allocation header sits immediately
before `p` and stores `Size = s`. -/
theorem general_allocate_aligned_and_size (debug : Bool) (H : Nat) (mem : Lstd.Mem)
    (ca f c block userSize k : Nat) (doInit0 : Bool)
    (hk3 : 3 ≤ k) (hk : k ≤ 13) (hH : 0 < H) (hH16 : H + 2 ^ k ≤ 2 ^ 16)
    (hb : block + 2 ^ 16 ≤ 2 ^ 64) :
    (Lstd.general_allocate debug H mem ca f c block userSize (2 ^ k) doInit0).1.userPtr
        % 2 ^ k = 0
    ∧ (Lstd.general_allocate debug H mem ca f c block userSize (2 ^ k) doInit0).1.header.Size
        = userSize
    ∧ (Lstd.general_allocate debug H mem ca f c block userSize (2 ^ k) doInit0).1.headerAddr + H
        = (Lstd.general_allocate debug H mem ca f c block userSize (2 ^ k) doInit0).1.userPtr := by
  obtain ⟨hu, hh, hhu, hs, hal, hap⟩ :=
    Lstd.encode_header_spec debug H mem block userSize k f c doInit0 hk hH hH16 hb
  have hka : (2 : Nat) ^ k ≤ 2 ^ 13 := Nat.pow_le_pow_right (by norm_num) hk
  obtain ⟨hge, hlt, hmod⟩ := Lstd.padding_wh_spec block k H hk hH hH16 (by omega)
  rw [general_allocate_unfold debug H mem ca f c block userSize k doInit0 hk3]
  exact ⟨by rw [hu]; exact hmod, hs, hhu⟩

/-- C1 witness: a concrete instantiation (debug build, `H = 112`, alignment 16,
size 100, raw block at 123456). -/
theorem general_allocate_aligned_and_size_witness :
    (3 ≤ 4 ∧ 4 ≤ 13 ∧ 0 < 112 ∧ 112 + 2 ^ 4 ≤ 2 ^ 16 ∧ 123456 + 2 ^ 16 ≤ 2 ^ 64)
    ∧ ((Lstd.general_allocate true 112 (fun _ => 0) 8 7 9 123456 100 (2 ^ 4) true).1.userPtr
          % 2 ^ 4 = 0
       ∧ (Lstd.general_allocate true 112 (fun _ => 0) 8 7 9 123456 100 (2 ^ 4) true).1.header.Size
          = 100
       ∧ (Lstd.general_allocate true 112 (fun _ => 0) 8 7 9 123456 100 (2 ^ 4) true).1.headerAddr
          + 112
          = (Lstd.general_allocate true 112 (fun _ => 0) 8 7 9 123456 100 (2 ^ 4) true).1.userPtr) :=
  ⟨by decide,
   general_allocate_aligned_and_size true 112 (fun _ => 0) 8 7 9 123456 100 4 true
     (by decide) (by decide) (by decide) (by decide) (by decide)⟩

/-- C1 counterexample: the claim as stated (every power-of-two alignment ≥
pointer size) fails on the code.  With alignment `2 ^ 17 = 131072` — a power of
two above the documented 8192-byte maximum — and a raw block at address 16, the
u16 truncation in `calculate_padding_for_pointer` makes the returned user
pointer misaligned (release build shown; a debug build dies on the internal
alignment assert instead of returning). -/
theorem general_allocate_misaligned_beyond_u16 :
    ¬ ((Lstd.general_allocate false 112 (fun _ => 0) 8 0 0 16 0 131072 false).1.userPtr
        % 131072 = 0) := by decide

/-- C10: for an allocation made by `general_allocate` with size `s` and
(clamped) power-of-two alignment `2 ^ k` in the documented range, a
`general_free` of the returned pointer that reaches the owning allocator's FREE
passes it exactly the original raw block and an `oldSize` equal to the total
size `general_allocate` requested from ALLOCATE
(`s + a + sizeof(allocation_header) + sizeof(allocation_header) % a`, plus the
guard bytes in debug builds). -/
theorem general_free_oldSize_matches_required (debug : Bool) (H : Nat)
    (mem mem2 : Lstd.Mem) (ca f c block userSize k : Nat) (doInit0 : Bool)
    (hk3 : 3 ≤ k) (hk : k ≤ 13) (hH : 0 < H) (hH16 : H + 2 ^ k ≤ 2 ^ 16)
    (hb : block + 2 ^ 16 ≤ 2 ^ 64) (m3 : Lstd.Mem) (trace : List (Nat × Nat))
    (hok : Lstd.general_free debug H mem2
        (some (Lstd.general_allocate debug H mem ca f c block userSize (2 ^ k) doInit0).1.userPtr)
        (Lstd.general_allocate debug H mem ca f c block userSize (2 ^ k) doInit0).1.header
        = .ok (m3, trace)) :
    trace = [(block,
      (Lstd.general_allocate debug H mem ca f c block userSize (2 ^ k) doInit0).2.2)] := by
  obtain ⟨hu, hh, hhu, hs, hal, hap⟩ :=
    Lstd.encode_header_spec debug H mem block userSize k f c doInit0 hk hH hH16 hb
  have hka : (2 : Nat) ^ k ≤ 2 ^ 13 := Nat.pow_le_pow_right (by norm_num) hk
  obtain ⟨hge, hlt, hmod⟩ := Lstd.padding_wh_spec block k H hk hH hH16 (by omega)
  rw [general_allocate_unfold debug H mem ca f c block userSize k doInit0 hk3] at hok ⊢
  dsimp only at hok ⊢
  unfold Lstd.general_free at hok
  rw [hu, hs, hal, hap] at hok
  dsimp only at hok
  set v := (if debug then
      Lstd.verify_header_unlocked mem2
        (block + Lstd.calculate_padding_for_pointer_with_header block (2 ^ k) H - H)
        (Lstd.encode_header debug H mem block userSize (2 ^ k) f c doInit0).1.header H
    else Except.ok ()) with hv
  cases hvv : v with
  | error e =>
    rw [hvv] at hok
    simp at hok
  | ok u =>
    rw [hvv] at hok
    simp only [Except.ok.injEq, Prod.mk.injEq] at hok
    obtain ⟨hm, ht⟩ := hok
    rw [← ht]
    have hb1 : block + Lstd.calculate_padding_for_pointer_with_header block (2 ^ k) H - H
        - (Lstd.calculate_padding_for_pointer_with_header block (2 ^ k) H - H) = block := by
      omega
    have hs1 : userSize + (2 ^ k + H + H % 2 ^ k)
        + (if debug then Lstd.NO_MANS_LAND_SIZE else 0)
        = userSize + 2 ^ k + H + H % 2 ^ k
        + (if debug then Lstd.NO_MANS_LAND_SIZE else 0) := by
      omega
    rw [hb1, hs1]

/-- C10 witness: a release-build concrete instantiation (the verify step is a
no-op, so the `.ok` hypothesis evaluates). -/
theorem general_free_oldSize_matches_required_witness :
    (3 ≤ 3 ∧ 3 ≤ 13 ∧ 0 < 40 ∧ 40 + 2 ^ 3 ≤ 2 ^ 16 ∧ 1024 + 2 ^ 16 ≤ 2 ^ 64)
    ∧ [((1024 : Nat), (20 + 2 ^ 3 + 40 + 40 % 2 ^ 3 + 0 : Nat))] = [(1024,
      (Lstd.general_allocate false 40 (fun _ => 0) 8 0 0 1024 20 (2 ^ 3) false).2.2)] :=
  ⟨by decide,
   general_free_oldSize_matches_required false 40 (fun _ => 0) (fun _ => 0) 8 0 0 1024 20 3 false
     (by decide) (by decide) (by decide) (by decide) (by decide) (fun _ => 0)
     [(1024, 20 + 2 ^ 3 + 40 + 40 % 2 ^ 3 + 0)] (by rfl)⟩

/-!  ## Pool allocator protocol claims  -/

/-- C3 counterexample: the cpp-utils pool allocator's RESIZE does not return
`old_ptr` or a must-move sentinel.  On a fresh pool, resizing an old pointer
(block 99, offset 0) returns a pointer into a freshly allocated pool block —
an address that is neither the old pointer nor null. -/
theorem pool_resize_returns_new_address :
    (Gu.pool_allocator (Gu.freshPool 65536 8) ⟨0, []⟩ .RESIZE 16 (some (99, 0)) 8).returned
        ≠ some (99, 0)
    ∧ (Gu.pool_allocator (Gu.freshPool 65536 8) ⟨0, []⟩ .RESIZE 16 (some (99, 0)) 8).returned
        ≠ none := by decide

/-- C3 (amended): the cpp-utils pool allocator's RESIZE never resizes in place
and never reports must-move; it behaves as a full reallocation: it obtains a
new block from the pool via `get`, issues a `CopyMemory` with the OLD pointer
as destination and the new block as source (`CopyMemory(oldMemory, newMemory,
oldSize)` with the dest-first signature from `memory.cpp`), and returns the
new address. -/
theorem pool_resize_reallocates (pool : Gu.Pool) (heap : Gu.Heap) (size : Nat)
    (oldMemory : Option (Nat × Nat)) (oldSize : Nat) :
    (Gu.pool_allocator pool heap .RESIZE size oldMemory oldSize).returned
        = some (Gu.get pool heap size).2.2
    ∧ (Gu.pool_allocator pool heap .RESIZE size oldMemory oldSize).copies
        = [(oldMemory.getD (0, 0), (Gu.get pool heap size).2.2, oldSize)] := ⟨rfl, rfl⟩

/-- C3 witness for the amended statement (concrete fresh pool). -/
theorem pool_resize_reallocates_witness :
    (Gu.pool_allocator (Gu.freshPool 65536 8) ⟨0, []⟩ .RESIZE 16 (some (99, 0)) 8).returned
        = some (Gu.get (Gu.freshPool 65536 8) ⟨0, []⟩ 16).2.2
    ∧ (Gu.pool_allocator (Gu.freshPool 65536 8) ⟨0, []⟩ .RESIZE 16 (some (99, 0)) 8).copies
        = [((99, 0), (Gu.get (Gu.freshPool 65536 8) ⟨0, []⟩ 16).2.2, 8)] :=
  pool_resize_reallocates (Gu.freshPool 65536 8) ⟨0, []⟩ 16 (some (99, 0)) 8

/-- C5 counterexample: allocating 10 bytes from a fresh pool with nominal block
size 16 and alignment 8 does NOT grow the nominal block size (10 + 6 bytes of
padding fit the 16-byte block exactly), and the subsequent 20-byte allocation
is NOT served from the same block: it grows the nominal size, demotes the first
block to Obsolete, and is served from a newly cycled block. -/
theorem pool_fresh_10_20_claim_false :
    (Gu.get (Gu.freshPool 16 8) ⟨0, []⟩ 10).1.BlockSize ≠ 32
    ∧ (Gu.get (Gu.get (Gu.freshPool 16 8) ⟨0, []⟩ 10).1
        (Gu.get (Gu.freshPool 16 8) ⟨0, []⟩ 10).2.1 20).1.ObsoletedMemblocks ≠ []
    ∧ (Gu.get (Gu.get (Gu.freshPool 16 8) ⟨0, []⟩ 10).1
        (Gu.get (Gu.freshPool 16 8) ⟨0, []⟩ 10).2.1 20).2.2.1
      ≠ (Gu.get (Gu.freshPool 16 8) ⟨0, []⟩ 10).2.2.1 := by decide

/-- C5 (amended): from a fresh pool with nominal block size 16 and alignment 8,
the first `get(10)` keeps the nominal size at 16 (10 rounds up to exactly 16),
obsoletes nothing, allocates block 0 and exhausts it; the second `get(20)`
grows the nominal size to 32 (the next power of two ≥ 20 + 4 bytes of padding),
demotes block 0 to Obsolete, and is served at offset 0 of the newly cycled
block 1 with 8 bytes left. -/
theorem pool_fresh_10_20_behaviour :
    (Gu.get (Gu.freshPool 16 8) ⟨0, []⟩ 10).1.BlockSize = 16
    ∧ (Gu.get (Gu.freshPool 16 8) ⟨0, []⟩ 10).1.ObsoletedMemblocks = []
    ∧ (Gu.get (Gu.freshPool 16 8) ⟨0, []⟩ 10).2.2 = (0, 0)
    ∧ (Gu.get (Gu.freshPool 16 8) ⟨0, []⟩ 10).1.BytesLeft = 0
    ∧ (Gu.get (Gu.get (Gu.freshPool 16 8) ⟨0, []⟩ 10).1
        (Gu.get (Gu.freshPool 16 8) ⟨0, []⟩ 10).2.1 20).1.BlockSize = 32
    ∧ (Gu.get (Gu.get (Gu.freshPool 16 8) ⟨0, []⟩ 10).1
        (Gu.get (Gu.freshPool 16 8) ⟨0, []⟩ 10).2.1 20).1.ObsoletedMemblocks = [0]
    ∧ (Gu.get (Gu.get (Gu.freshPool 16 8) ⟨0, []⟩ 10).1
        (Gu.get (Gu.freshPool 16 8) ⟨0, []⟩ 10).2.1 20).1.CurrentMemblock = some 1
    ∧ (Gu.get (Gu.get (Gu.freshPool 16 8) ⟨0, []⟩ 10).1
        (Gu.get (Gu.freshPool 16 8) ⟨0, []⟩ 10).2.1 20).2.2 = (1, 0)
    ∧ (Gu.get (Gu.get (Gu.freshPool 16 8) ⟨0, []⟩ 10).1
        (Gu.get (Gu.freshPool 16 8) ⟨0, []⟩ 10).2.1 20).1.BytesLeft = 8 := by decide

/-!  ## Temporary allocator claims  -/

namespace Temp

/-- `cp2_fuel` starting from a power of two stays a power of two. -/
theorem cp2_fuel_pow (x : Nat) : ∀ (f i : Nat), ∃ j, cp2_fuel x f (2 ^ i) = 2 ^ j ∧ i ≤ j := by
  intro f
  induction f with
  | zero => exact fun i => ⟨i, rfl, le_refl i⟩
  | succ f ih =>
    intro i
    unfold cp2_fuel
    by_cases hx : x ≤ 2 ^ i
    · exact ⟨i, by rw [if_pos hx], le_refl i⟩
    · rw [if_neg hx]
      have h2 : 2 ^ i * 2 = 2 ^ (i + 1) := by ring
      rw [h2]
      obtain ⟨j, hj, hij⟩ := ih (i + 1)
      exact ⟨j, hj, by omega⟩

/-- With enough fuel, `cp2_fuel` reaches at least `x`. -/
theorem cp2_fuel_ge (x : Nat) : ∀ (f i : Nat), x ≤ 2 ^ (i + f) → x ≤ cp2_fuel x f (2 ^ i) := by
  intro f
  induction f with
  | zero => intro i h; simpa using h
  | succ f ih =>
    intro i h
    unfold cp2_fuel
    by_cases hx : x ≤ 2 ^ i
    · rwa [if_pos hx]
    · rw [if_neg hx]
      have h2 : 2 ^ i * 2 = 2 ^ (i + 1) := by ring
      rw [h2]
      exact ih (i + 1) (by rw [show i + 1 + f = i + (f + 1) by omega]; exact h)

/-- `cp2_fuel` never overshoots a power-of-two bound on `x`. -/
theorem cp2_fuel_le (x : Nat) :
    ∀ (f i m : Nat), i ≤ m → x ≤ 2 ^ m → cp2_fuel x f (2 ^ i) ≤ 2 ^ m := by
  intro f
  induction f with
  | zero =>
    intro i m him _
    exact Nat.pow_le_pow_right (by norm_num) him
  | succ f ih =>
    intro i m him hxm
    unfold cp2_fuel
    by_cases hx : x ≤ 2 ^ i
    · rw [if_pos hx]
      exact Nat.pow_le_pow_right (by norm_num) him
    · rw [if_neg hx]
      have h2 : 2 ^ i * 2 = 2 ^ (i + 1) := by ring
      rw [h2]
      have him2 : i + 1 ≤ m := by
        by_contra hc
        have hmi : m ≤ i := by omega
        exact hx (le_trans hxm (Nat.pow_le_pow_right (by norm_num) hmi))
      exact ih (i + 1) m him2 hxm

/-- `ceil_pow_of_2` returns a power of two. -/
theorem ceil_pow_of_2_pow (x : Nat) : ∃ j, ceil_pow_of_2 x = 2 ^ j := by
  obtain ⟨j, hj, _⟩ := cp2_fuel_pow x x 0
  exact ⟨j, by rw [ceil_pow_of_2, show (1 : Nat) = 2 ^ 0 by norm_num, hj]⟩

/-- `ceil_pow_of_2 x ≥ x`. -/
theorem le_ceil_pow_of_2 (x : Nat) : x ≤ ceil_pow_of_2 x := by
  have h := cp2_fuel_ge x x 0 (by simpa using (Nat.lt_two_pow x).le)
  rw [ceil_pow_of_2, show (1 : Nat) = 2 ^ 0 by norm_num]
  exact h

/-- `ceil_pow_of_2` does not overshoot a power-of-two bound. -/
theorem ceil_pow_of_2_le (x m : Nat) (h : x ≤ 2 ^ m) : ceil_pow_of_2 x ≤ 2 ^ m := by
  have h2 := cp2_fuel_le x x 0 m (Nat.zero_le m) h
  rw [ceil_pow_of_2, show (1 : Nat) = 2 ^ 0 by norm_num]
  exact h2

/-- `(m + 8191) & -8192` is the identity on multiples of 8 KiB (below u64 wrap). -/
theorem round_up_8KiB_of_dvd (m : Nat) (h8 : (8192 : Nat) ∣ m) (hm : m + 8191 < 2 ^ 64) :
    round_up_8KiB m = m := by
  unfold round_up_8KiB
  have he : m + 8192 - 1 = m + 8191 := by omega
  rw [he, Nat.mod_eq_of_lt hm,
    show (2 ^ 64 - 8192 : Nat) = 2 ^ 64 - 2 ^ 13 from by norm_num,
    land_mask_eq_div_mul (m + 8191) 13 (by norm_num) hm,
    show (8191 : Nat) = 2 ^ 13 - 1 from by norm_num,
    roundup_div_mul m (2 ^ 13) (by norm_num)]
  obtain ⟨t, rfl⟩ := h8
  rw [show (8192 : Nat) * t = 2 ^ 13 * t from by norm_num, Nat.mul_mod_right,
    Nat.sub_zero, Nat.mod_self, Nat.add_zero]

end Temp

/-- C4: against an 8 KiB base page with nothing used, a single 10 KiB (10240
byte) ALLOCATE appends exactly one overflow page, serves the request at offset
0 of that page (never straddling two pages), and the overflow page's capacity
is ≥ 10 KiB and a multiple of 16 KiB; a subsequent FREE_ALL leaves a single
base page whose capacity equals (hence is ≥) the sum of all page capacities
before the FREE_ALL.  The floating-point growth heuristic `g` is arbitrary
(bounded only to keep the `size_t` arithmetic from wrapping). -/
theorem temp_alloc_10KiB_overflow_page (g : Nat → Nat) (hg : g 8192 ≤ 2 ^ 62) :
    (Temp.temp_allocate g ⟨[⟨0, 8192⟩], 0⟩ 10240).1.Pages
        = [⟨0, 8192⟩, ⟨10240, Temp.reserve_target g 8192 10240⟩]
    ∧ (Temp.temp_allocate g ⟨[⟨0, 8192⟩], 0⟩ 10240).2 = (1, 0)
    ∧ 10240 ≤ Temp.reserve_target g 8192 10240
    ∧ Temp.reserve_target g 8192 10240 % 16384 = 0
    ∧ Temp.temp_free_all (Temp.temp_allocate g ⟨[⟨0, 8192⟩], 0⟩ 10240).1
        = ⟨[⟨0, 8192 + Temp.reserve_target g 8192 10240⟩], 0⟩
    ∧ (Temp.temp_free_all (Temp.temp_allocate g ⟨[⟨0, 8192⟩], 0⟩ 10240).1).Pages.foldl
            (fun acc p => acc + p.Reserved) 0
        ≥ (Temp.temp_allocate g ⟨[⟨0, 8192⟩], 0⟩ 10240).1.Pages.foldl
            (fun acc p => acc + p.Reserved) 0 := by
  have hc20480 : Temp.ceil_pow_of_2 20480 = 2 ^ 15 := by decide
  obtain ⟨j, hj⟩ := Temp.ceil_pow_of_2_pow (g 8192)
  have hcle : Temp.ceil_pow_of_2 (g 8192) ≤ 2 ^ 62 := Temp.ceil_pow_of_2_le _ 62 hg
  have hj62 : j ≤ 62 := by
    by_contra hc
    have h63 : (2 : Nat) ^ 63 ≤ 2 ^ j := Nat.pow_le_pow_right (by norm_num) (by omega)
    have hn : (2 : Nat) ^ 62 < 2 ^ 63 := by norm_num
    omega
  have hmax : max ((2 : Nat) ^ 15) (2 ^ j) = 2 ^ (max 15 j) := by
    rcases le_total 15 j with h | h
    · rw [max_eq_right (Nat.pow_le_pow_right (by norm_num) h), max_eq_right h]
    · rw [max_eq_left (Nat.pow_le_pow_right (by norm_num) h), max_eq_left h]
  have hJle : (2 : Nat) ^ max 15 j ≤ 2 ^ 62 :=
    Nat.pow_le_pow_right (by norm_num) (by omega)
  have hdvd : (8192 : Nat) ∣ 2 ^ max 15 j := by
    rw [show (8192 : Nat) = 2 ^ 13 from by norm_num]
    exact pow_dvd_pow 2 (by omega)
  have hR : Temp.reserve_target g 8192 10240 = 2 ^ max 15 j := by
    unfold Temp.reserve_target
    rw [show (10240 * 2 : Nat) = 20480 from rfl, hc20480, hj, hmax]
    apply Temp.round_up_8KiB_of_dvd _ hdvd
    have hlim : (2 : Nat) ^ 62 + 8191 < 2 ^ 64 := by norm_num
    omega
  have hRge : 10240 ≤ Temp.reserve_target g 8192 10240 := by
    rw [hR]
    have h15 : (2 : Nat) ^ 15 ≤ 2 ^ max 15 j :=
      Nat.pow_le_pow_right (by norm_num) (le_max_left _ _)
    norm_num at h15 ⊢
    omega
  have hR16 : Temp.reserve_target g 8192 10240 % 16384 = 0 := by
    rw [hR]
    obtain ⟨t, ht⟩ : (16384 : Nat) ∣ 2 ^ max 15 j := by
      rw [show (16384 : Nat) = 2 ^ 14 from by norm_num]
      exact pow_dvd_pow 2 (by omega)
    rw [ht, Nat.mul_mod_right]
  have hrun : Temp.temp_allocate g ⟨[⟨0, 8192⟩], 0⟩ 10240
      = (⟨[⟨0, 8192⟩, ⟨10240, Temp.reserve_target g 8192 10240⟩], 10240⟩, 1, 0) := rfl
  have hfree : Temp.temp_free_all (Temp.temp_allocate g ⟨[⟨0, 8192⟩], 0⟩ 10240).1
      = ⟨[⟨0, 8192 + Temp.reserve_target g 8192 10240⟩], 0⟩ := by
    rw [hrun]
    unfold Temp.temp_free_all
    dsimp only [List.headD, List.foldl]
    rw [if_pos (show (0 + 8192 + Temp.reserve_target g 8192 10240) ≠ 8192 by omega)]
  refine ⟨by rw [hrun], by rw [hrun], hRge, hR16, hfree, ?_⟩
  rw [hfree, hrun]
  dsimp only [List.foldl]
  omega

/-- C4 witness: a concrete growth-heuristic value (the one the float formula
yields for an 8 KiB page is ≈ 44570). -/
theorem temp_alloc_10KiB_overflow_page_witness :
    ((fun _ : Nat => 44570) 8192 ≤ 2 ^ 62)
    ∧ ((Temp.temp_allocate (fun _ => 44570) ⟨[⟨0, 8192⟩], 0⟩ 10240).1.Pages
        = [⟨0, 8192⟩, ⟨10240, Temp.reserve_target (fun _ => 44570) 8192 10240⟩]
    ∧ (Temp.temp_allocate (fun _ => 44570) ⟨[⟨0, 8192⟩], 0⟩ 10240).2 = (1, 0)
    ∧ 10240 ≤ Temp.reserve_target (fun _ => 44570) 8192 10240
    ∧ Temp.reserve_target (fun _ => 44570) 8192 10240 % 16384 = 0
    ∧ Temp.temp_free_all (Temp.temp_allocate (fun _ => 44570) ⟨[⟨0, 8192⟩], 0⟩ 10240).1
        = ⟨[⟨0, 8192 + Temp.reserve_target (fun _ => 44570) 8192 10240⟩], 0⟩
    ∧ (Temp.temp_free_all
          (Temp.temp_allocate (fun _ => 44570) ⟨[⟨0, 8192⟩], 0⟩ 10240).1).Pages.foldl
            (fun acc p => acc + p.Reserved) 0
        ≥ (Temp.temp_allocate (fun _ => 44570) ⟨[⟨0, 8192⟩], 0⟩ 10240).1.Pages.foldl
            (fun acc p => acc + p.Reserved) 0) :=
  ⟨by norm_num, temp_alloc_10KiB_overflow_page (fun _ => 44570) (by norm_num)⟩

/-!  ## Pool consumption / release claims  -/

namespace Gu

/-- `grow_bs_fuel` never shrinks the block size. -/
theorem grow_bs_fuel_ge_self (size : Nat) :
    ∀ (f bs : Nat), bs ≤ grow_bs_fuel f bs size := by
  intro f
  induction f with
  | zero => intro bs; exact le_refl bs
  | succ f ih =>
    intro bs
    unfold grow_bs_fuel
    by_cases hx : bs < size
    · rw [if_pos hx]
      exact le_trans (by omega) (ih (bs * 2))
    · rw [if_neg hx]

/-- With fuel `f` and `size ≤ 2 ^ f * bs`, the doubling loop reaches `size`. -/
theorem grow_bs_fuel_ge (size : Nat) :
    ∀ (f bs : Nat), 0 < bs → size ≤ 2 ^ f * bs → size ≤ grow_bs_fuel f bs size := by
  intro f
  induction f with
  | zero => intro bs _ h; simpa using h
  | succ f ih =>
    intro bs hbs h
    unfold grow_bs_fuel
    by_cases hx : bs < size
    · rw [if_pos hx]
      apply ih (bs * 2) (by omega)
      calc size ≤ 2 ^ (f + 1) * bs := h
        _ = 2 ^ f * (bs * 2) := by ring
    · rw [if_neg hx]
      omega

/-- The doubled nominal block size always fits the request (for a positive
starting block size; the C loop would not terminate for `bs = 0`). -/
theorem grow_bs_ge (bs size : Nat) (h : 0 < bs) : size ≤ grow_bs bs size := by
  apply grow_bs_fuel_ge size size bs h
  calc size ≤ 2 ^ size := (Nat.lt_two_pow size).le
    _ ≤ 2 ^ size * bs := Nat.le_mul_of_pos_right _ h

/-- `grow_bs` never shrinks the block size. -/
theorem grow_bs_ge_self (bs size : Nat) : bs ≤ grow_bs bs size :=
  grow_bs_fuel_ge_self size size bs

/-- After `ensure_memory_exists`, the cursor is at offset 0 of the new block. -/
theorem ensure_position_zero (pool : Pool) (heap : Heap) (size : Nat) :
    (ensure_memory_exists pool heap size).1.CurrentPosition = 0 := by
  unfold ensure_memory_exists
  dsimp only
  by_cases hres : pool.BlockSize < grow_bs pool.BlockSize size
  · rw [if_pos hres]
    rfl
  · rw [if_neg hres]
    rfl

/-- After `ensure_memory_exists`, the whole (possibly grown) block is free. -/
theorem ensure_bytes_left (pool : Pool) (heap : Heap) (size : Nat) :
    (ensure_memory_exists pool heap size).1.BytesLeft = grow_bs pool.BlockSize size := by
  unfold ensure_memory_exists
  dsimp only
  by_cases hres : pool.BlockSize < grow_bs pool.BlockSize size
  · rw [if_pos hres]
    rfl
  · rw [if_neg hres]
    show pool.BlockSize = grow_bs pool.BlockSize size
    have h1 := grow_bs_ge_self pool.BlockSize size
    omega

end Gu

/-- C8: `get(pool, s)` always consumes `s + extra` bytes of the current block
where `extra = Alignment - s % Alignment` satisfies `1 ≤ extra ≤ Alignment`
(a request already a multiple of the alignment — including `s = 0` — still
consumes a full extra `Alignment` bytes); the consumed amount is a positive
multiple of the alignment, the returned pointer's offset in its block is a
multiple of the alignment (given the cursor invariant), the cursor advances by
exactly the consumed amount and stays aligned, and `BytesLeft` drops by the
consumed amount from the serving block's budget. -/
theorem pool_get_alignment_consumption (pool : Gu.Pool) (heap : Gu.Heap) (s : Nat)
    (ha : 0 < pool.Alignment) (hpos : pool.Alignment ∣ pool.CurrentPosition)
    (hbs : 0 < pool.BlockSize) :
    1 ≤ pool.Alignment - s % pool.Alignment
    ∧ pool.Alignment - s % pool.Alignment ≤ pool.Alignment
    ∧ (pool.Alignment ∣ s → pool.Alignment - s % pool.Alignment = pool.Alignment)
    ∧ pool.Alignment ∣ (s + (pool.Alignment - s % pool.Alignment))
    ∧ 0 < s + (pool.Alignment - s % pool.Alignment)
    ∧ (Gu.get pool heap s).2.2.2 % pool.Alignment = 0
    ∧ (Gu.get pool heap s).1.CurrentPosition
        = (Gu.get pool heap s).2.2.2 + (s + (pool.Alignment - s % pool.Alignment))
    ∧ pool.Alignment ∣ (Gu.get pool heap s).1.CurrentPosition
    ∧ (Gu.get pool heap s).1.BytesLeft + (s + (pool.Alignment - s % pool.Alignment))
        = (if pool.BytesLeft < s + (pool.Alignment - s % pool.Alignment)
           then Gu.grow_bs pool.BlockSize (s + (pool.Alignment - s % pool.Alignment))
           else pool.BytesLeft) := by
  have hmod : s % pool.Alignment < pool.Alignment := Nat.mod_lt _ ha
  have hdm := Nat.div_add_mod s pool.Alignment
  have hextra1 : 1 ≤ pool.Alignment - s % pool.Alignment := by omega
  have hextra2 : pool.Alignment - s % pool.Alignment ≤ pool.Alignment := by omega
  have hdvds : pool.Alignment ∣ s → pool.Alignment - s % pool.Alignment = pool.Alignment := by
    rintro ⟨t, rfl⟩
    rw [Nat.mul_mod_right, Nat.sub_zero]
  have hdvdc : pool.Alignment ∣ (s + (pool.Alignment - s % pool.Alignment)) := by
    refine ⟨s / pool.Alignment + 1, ?_⟩
    have hm : pool.Alignment * (s / pool.Alignment + 1)
        = pool.Alignment * (s / pool.Alignment) + pool.Alignment := by ring
    omega
  have hposc : 0 < s + (pool.Alignment - s % pool.Alignment) := by omega
  have hoff : (Gu.get pool heap s).2.2.2
      = if pool.BytesLeft < s + (pool.Alignment - s % pool.Alignment) then 0
        else pool.CurrentPosition := by
    unfold Gu.get
    dsimp only
    by_cases hcase : pool.BytesLeft < s + (pool.Alignment - s % pool.Alignment)
    · rw [if_pos hcase, if_pos hcase]
      exact Gu.ensure_position_zero pool heap _
    · rw [if_neg hcase, if_neg hcase]
  have hcur : (Gu.get pool heap s).1.CurrentPosition
      = (Gu.get pool heap s).2.2.2 + (s + (pool.Alignment - s % pool.Alignment)) := by
    conv_lhs => unfold Gu.get
    conv_rhs => rw [hoff]
    dsimp only
    by_cases hcase : pool.BytesLeft < s + (pool.Alignment - s % pool.Alignment)
    · rw [if_pos hcase, if_pos hcase]
      rw [Gu.ensure_position_zero pool heap _]
    · rw [if_neg hcase, if_neg hcase]
  have hbl : (Gu.get pool heap s).1.BytesLeft
      = (if pool.BytesLeft < s + (pool.Alignment - s % pool.Alignment)
         then Gu.grow_bs pool.BlockSize (s + (pool.Alignment - s % pool.Alignment))
         else pool.BytesLeft) - (s + (pool.Alignment - s % pool.Alignment)) := by
    unfold Gu.get
    dsimp only
    by_cases hcase : pool.BytesLeft < s + (pool.Alignment - s % pool.Alignment)
    · rw [if_pos hcase, if_pos hcase]
      rw [Gu.ensure_bytes_left pool heap _]
    · rw [if_neg hcase, if_neg hcase]
  refine ⟨hextra1, hextra2, hdvds, hdvdc, hposc, ?_, hcur, ?_, ?_⟩
  · rw [hoff]
    by_cases hcase : pool.BytesLeft < s + (pool.Alignment - s % pool.Alignment)
    · rw [if_pos hcase, Nat.zero_mod]
    · rw [if_neg hcase]
      obtain ⟨t, ht⟩ := hpos
      rw [ht, Nat.mul_mod_right]
  · rw [hcur, hoff]
    by_cases hcase : pool.BytesLeft < s + (pool.Alignment - s % pool.Alignment)
    · rw [if_pos hcase]
      exact Nat.dvd_add (Dvd.intro 0 rfl) hdvdc
    · rw [if_neg hcase]
      exact Nat.dvd_add hpos hdvdc
  · rw [hbl]
    by_cases hcase : pool.BytesLeft < s + (pool.Alignment - s % pool.Alignment)
    · rw [if_pos hcase]
      have hg := Gu.grow_bs_ge pool.BlockSize (s + (pool.Alignment - s % pool.Alignment)) hbs
      omega
    · rw [if_neg hcase]
      omega

/-- C8 witness: a fresh pool (block size 16, alignment 8) and a 10-byte request
(`extra = 6`, consumed = 16, served at offset 0 of a fresh block). -/
theorem pool_get_alignment_consumption_witness :
    (0 < (Gu.freshPool 16 8).Alignment
      ∧ (Gu.freshPool 16 8).Alignment ∣ (Gu.freshPool 16 8).CurrentPosition
      ∧ 0 < (Gu.freshPool 16 8).BlockSize)
    ∧ (1 ≤ (Gu.freshPool 16 8).Alignment - 10 % (Gu.freshPool 16 8).Alignment
    ∧ (Gu.freshPool 16 8).Alignment - 10 % (Gu.freshPool 16 8).Alignment
        ≤ (Gu.freshPool 16 8).Alignment
    ∧ ((Gu.freshPool 16 8).Alignment ∣ 10 →
        (Gu.freshPool 16 8).Alignment - 10 % (Gu.freshPool 16 8).Alignment
          = (Gu.freshPool 16 8).Alignment)
    ∧ (Gu.freshPool 16 8).Alignment
        ∣ (10 + ((Gu.freshPool 16 8).Alignment - 10 % (Gu.freshPool 16 8).Alignment))
    ∧ 0 < 10 + ((Gu.freshPool 16 8).Alignment - 10 % (Gu.freshPool 16 8).Alignment)
    ∧ (Gu.get (Gu.freshPool 16 8) ⟨0, []⟩ 10).2.2.2 % (Gu.freshPool 16 8).Alignment = 0
    ∧ (Gu.get (Gu.freshPool 16 8) ⟨0, []⟩ 10).1.CurrentPosition
        = (Gu.get (Gu.freshPool 16 8) ⟨0, []⟩ 10).2.2.2
          + (10 + ((Gu.freshPool 16 8).Alignment - 10 % (Gu.freshPool 16 8).Alignment))
    ∧ (Gu.freshPool 16 8).Alignment
        ∣ (Gu.get (Gu.freshPool 16 8) ⟨0, []⟩ 10).1.CurrentPosition
    ∧ (Gu.get (Gu.freshPool 16 8) ⟨0, []⟩ 10).1.BytesLeft
          + (10 + ((Gu.freshPool 16 8).Alignment - 10 % (Gu.freshPool 16 8).Alignment))
        = (if (Gu.freshPool 16 8).BytesLeft
              < 10 + ((Gu.freshPool 16 8).Alignment - 10 % (Gu.freshPool 16 8).Alignment)
           then Gu.grow_bs (Gu.freshPool 16 8).BlockSize
              (10 + ((Gu.freshPool 16 8).Alignment - 10 % (Gu.freshPool 16 8).Alignment))
           else (Gu.freshPool 16 8).BytesLeft)) :=
  ⟨by decide,
   pool_get_alignment_consumption (Gu.freshPool 16 8) ⟨0, []⟩ 10
     (by decide) (by decide) (by decide)⟩

namespace Gu

/-- Folding `heap_delete` only erases from the live list. -/
theorem foldl_heap_delete (u : List Nat) : ∀ (h : Heap),
    u.foldl heap_delete h = ⟨h.nextId, u.foldl (fun l b => l.erase b) h.live⟩ := by
  induction u with
  | nil => intro h; rfl
  | cons x u ih =>
    intro h
    rw [List.foldl_cons, List.foldl_cons, ih]
    rfl

/-- Erasing each element of `u` once from a duplicate-free list that is a
permutation of `u ++ rest` leaves a permutation of `rest`. -/
theorem fold_erase_perm : ∀ (u live rest : List Nat), live.Perm (u ++ rest) → live.Nodup →
    (u.foldl (fun l b => l.erase b) live).Perm rest
    ∧ (u.foldl (fun l b => l.erase b) live).Nodup := by
  intro u
  induction u with
  | nil =>
    intro live rest hp hn
    exact ⟨by simpa using hp, hn⟩
  | cons x u ih =>
    intro live rest hp hn
    rw [List.foldl_cons]
    apply ih
    · have h1 : (live.erase x).Perm ((x :: (u ++ rest)).erase x) := hp.erase x
      rwa [List.erase_cons_head] at h1
    · exact hn.erase x

/-- A nonempty list is a permutation of its last element consed on the rest. -/
theorem perm_getLastD_dropLast (l : List Nat) (hne : l ≠ []) :
    l.Perm (l.getLastD 0 :: l.dropLast) := by
  have h3 : l.getLastD 0 = l.getLast hne := by
    rw [List.getLastD_eq_getLast?, List.getLast?_eq_getLast l hne]
    rfl
  rw [h3]
  have h2 : l.dropLast ++ [l.getLast hne] = l := List.dropLast_append_getLast hne
  apply List.perm_iff_count.mpr
  intro a
  conv_lhs => rw [← h2]
  simp [List.count_append, List.count_cons]

/-- What `reset` guarantees: a current block is cycled in, and the live heap
blocks are exactly that current block plus the (duplicate-free) Unused list. -/
theorem reset_spec (pool : Pool) (heap : Heap) (hwf : poolWf pool heap) :
    ∃ cur, (reset pool heap).1.CurrentMemblock = some cur
    ∧ ((reset pool heap).2.live).Perm (cur :: (reset pool heap).1.UnusedMemblocks)
    ∧ ((reset pool heap).2.live).Nodup
    ∧ cur ∉ (reset pool heap).1.UnusedMemblocks := by
  obtain ⟨hperm, hnodup, hfresh⟩ := hwf
  have hre : heap.live.Perm (pool.ObsoletedMemblocks
      ++ (currentList pool ++ (pool.UsedMemblocks ++ pool.UnusedMemblocks))) := by
    refine hperm.trans ?_
    apply List.perm_iff_count.mpr
    intro a
    simp [List.count_append]
    omega
  obtain ⟨hp1, hn1⟩ := fold_erase_perm pool.ObsoletedMemblocks heap.live _ hre hnodup
  have hdel := foldl_heap_delete pool.ObsoletedMemblocks heap
  unfold reset cycle_new_block
  dsimp only
  rw [hdel]
  cases hc : pool.CurrentMemblock with
  | some c =>
    have hcl : currentList pool = [c] := by
      unfold currentList
      rw [hc]
    rw [hcl] at hp1
    have hne : (pool.UnusedMemblocks ++ [c]) ++ pool.UsedMemblocks ≠ [] := by simp
    dsimp only
    rw [if_pos hne]
    refine ⟨((pool.UnusedMemblocks ++ [c]) ++ pool.UsedMemblocks).getLastD 0, rfl, ?_, hn1, ?_⟩
    all_goals
      have hlU1 : (pool.ObsoletedMemblocks.foldl (fun l b => l.erase b) heap.live).Perm
          ((pool.UnusedMemblocks ++ [c]) ++ pool.UsedMemblocks) := by
        refine hp1.trans ?_
        apply List.perm_iff_count.mpr
        intro a
        simp [List.count_append, List.count_cons]
        omega
    · exact hlU1.trans (perm_getLastD_dropLast _ hne)
    · have hnd := (hlU1.trans (perm_getLastD_dropLast _ hne)).nodup hn1
      exact (List.nodup_cons.mp hnd).1
  | none =>
    have hcl : currentList pool = [] := by
      unfold currentList
      rw [hc]
    rw [hcl] at hp1
    dsimp only
    by_cases hne : pool.UnusedMemblocks ++ pool.UsedMemblocks ≠ []
    · rw [if_pos hne]
      refine ⟨(pool.UnusedMemblocks ++ pool.UsedMemblocks).getLastD 0, rfl, ?_, hn1, ?_⟩
      all_goals
        have hlU1 : (pool.ObsoletedMemblocks.foldl (fun l b => l.erase b) heap.live).Perm
            (pool.UnusedMemblocks ++ pool.UsedMemblocks) := by
          refine hp1.trans ?_
          apply List.perm_iff_count.mpr
          intro a
          simp [List.count_append]
          omega
      · exact hlU1.trans (perm_getLastD_dropLast _ hne)
      · have hnd := (hlU1.trans (perm_getLastD_dropLast _ hne)).nodup hn1
        exact (List.nodup_cons.mp hnd).1
    · rw [if_neg hne]
      push_neg at hne
      obtain ⟨hu0, hus⟩ := List.append_eq_nil.mp hne
      rw [hu0, hus] at hp1
      have hlnil : pool.ObsoletedMemblocks.foldl (fun l b => l.erase b) heap.live = [] :=
        List.Perm.eq_nil (by simpa using hp1)
      rw [hu0, hus, hlnil]
      exact ⟨heap.nextId, rfl, List.Perm.refl _, List.nodup_singleton _, List.not_mem_nil _⟩

end Gu

/-- C9: `release` does not return the pool to an empty state.  The `reset` it
performs first cycles a fresh current block in; `release` then frees only the
blocks in `UnusedMemblocks`, leaving the pool state (including the Unused
list's contents/Count) exactly as `reset` left it and never freeing the current
block: afterwards exactly one heap block is still live — the current one — and
every pointer remaining in `UnusedMemblocks` refers to a freed block. -/
theorem pool_release_leaves_current_alive (pool : Gu.Pool) (heap : Gu.Heap)
    (hwf : Gu.poolWf pool heap) :
    ∃ cur, (Gu.release pool heap).1.CurrentMemblock = some cur
    ∧ ((Gu.release pool heap).2.live).Perm [cur]
    ∧ (Gu.release pool heap).1 = (Gu.reset pool heap).1
    ∧ ∀ b ∈ (Gu.release pool heap).1.UnusedMemblocks, b ∉ (Gu.release pool heap).2.live := by
  obtain ⟨cur, hcur, hperm2, hnodup2, hnotin⟩ := Gu.reset_spec pool heap hwf
  have hrel1 : (Gu.release pool heap).1 = (Gu.reset pool heap).1 := rfl
  have hrel2 : (Gu.release pool heap).2
      = (Gu.reset pool heap).1.UnusedMemblocks.foldl Gu.heap_delete (Gu.reset pool heap).2 :=
    rfl
  have hdel := Gu.foldl_heap_delete (Gu.reset pool heap).1.UnusedMemblocks (Gu.reset pool heap).2
  have hshuffle : ((Gu.reset pool heap).2.live).Perm
      ((Gu.reset pool heap).1.UnusedMemblocks ++ [cur]) := by
    refine hperm2.trans ?_
    apply List.perm_iff_count.mpr
    intro a
    simp [List.count_append, List.count_cons]
  obtain ⟨hp3, hn3⟩ := Gu.fold_erase_perm (Gu.reset pool heap).1.UnusedMemblocks
    (Gu.reset pool heap).2.live [cur] hshuffle hnodup2
  have hlive3 : (Gu.release pool heap).2.live
      = (Gu.reset pool heap).1.UnusedMemblocks.foldl (fun l b => l.erase b)
          (Gu.reset pool heap).2.live := by
    rw [hrel2, hdel]
  refine ⟨cur, hcur, ?_, hrel1, ?_⟩
  · rw [hlive3]
    exact hp3
  · intro b hb hbl
    rw [hlive3] at hbl
    have hbcur : b = cur := by
      have := hp3.mem_iff.mp hbl
      simpa using this
    rw [hrel1] at hb
    exact hnotin (hbcur ▸ hb)

/-- C9 witness: a pool tracking one block in each role (current 0, used 2,
obsoleted 3, unused 1) against a heap with blocks 0–3 live. -/
theorem pool_release_leaves_current_alive_witness :
    Gu.poolWf
      { BlockSize := 16, Alignment := 8, UnusedMemblocks := [1], UsedMemblocks := [2],
        ObsoletedMemblocks := [3], CurrentMemblock := some 0, CurrentPosition := 16,
        BytesLeft := 0 } ⟨4, [0, 1, 2, 3]⟩
    ∧ ∃ cur,
      (Gu.release
        { BlockSize := 16, Alignment := 8, UnusedMemblocks := [1], UsedMemblocks := [2],
          ObsoletedMemblocks := [3], CurrentMemblock := some 0, CurrentPosition := 16,
          BytesLeft := 0 } ⟨4, [0, 1, 2, 3]⟩).1.CurrentMemblock = some cur
      ∧ ((Gu.release
        { BlockSize := 16, Alignment := 8, UnusedMemblocks := [1], UsedMemblocks := [2],
          ObsoletedMemblocks := [3], CurrentMemblock := some 0, CurrentPosition := 16,
          BytesLeft := 0 } ⟨4, [0, 1, 2, 3]⟩).2.live).Perm [cur]
      ∧ (Gu.release
        { BlockSize := 16, Alignment := 8, UnusedMemblocks := [1], UsedMemblocks := [2],
          ObsoletedMemblocks := [3], CurrentMemblock := some 0, CurrentPosition := 16,
          BytesLeft := 0 } ⟨4, [0, 1, 2, 3]⟩).1
        = (Gu.reset
        { BlockSize := 16, Alignment := 8, UnusedMemblocks := [1], UsedMemblocks := [2],
          ObsoletedMemblocks := [3], CurrentMemblock := some 0, CurrentPosition := 16,
          BytesLeft := 0 } ⟨4, [0, 1, 2, 3]⟩).1
      ∧ ∀ b ∈ (Gu.release
        { BlockSize := 16, Alignment := 8, UnusedMemblocks := [1], UsedMemblocks := [2],
          ObsoletedMemblocks := [3], CurrentMemblock := some 0, CurrentPosition := 16,
          BytesLeft := 0 } ⟨4, [0, 1, 2, 3]⟩).1.UnusedMemblocks,
        b ∉ (Gu.release
        { BlockSize := 16, Alignment := 8, UnusedMemblocks := [1], UsedMemblocks := [2],
          ObsoletedMemblocks := [3], CurrentMemblock := some 0, CurrentPosition := 16,
          BytesLeft := 0 } ⟨4, [0, 1, 2, 3]⟩).2.live :=
  ⟨by unfold Gu.poolWf Gu.currentList; decide,
   pool_release_leaves_current_alive
     { BlockSize := 16, Alignment := 8, UnusedMemblocks := [1], UsedMemblocks := [2],
       ObsoletedMemblocks := [3], CurrentMemblock := some 0, CurrentPosition := 16,
       BytesLeft := 0 } ⟨4, [0, 1, 2, 3]⟩ (by unfold Gu.poolWf Gu.currentList; decide)⟩

/-!  ## Double-free claims  -/

namespace Lstd

/-- `is_pow_of_2` accepts every power of two. -/
theorem is_pow_of_2_two_pow (k : Nat) : is_pow_of_2 (2 ^ k) = true := by
  unfold is_pow_of_2
  have h0 : (2 ^ k : Nat) ≠ 0 := by positivity
  have hland : Nat.land (2 ^ k) (2 ^ k - 1) = 0 := by
    show 2 ^ k &&& (2 ^ k - 1) = 0
    apply Nat.eq_of_testBit_eq
    intro i
    rw [Nat.testBit_and, Nat.testBit_two_pow_sub_one, Nat.zero_testBit]
    by_cases hik : k = i
    · subst hik
      simp
    · simp [Nat.testBit_two_pow, hik]
  simp [h0, hland]

/-- All the checks of `verify_header_unlocked` pass on an intact header. -/
theorem verify_header_ok (mem : Mem) (ptr H k : Nat) (hdr : allocation_header)
    (hk3 : 3 ≤ k) (hptr : H ≤ ptr)
    (hal : hdr.Alignment = 2 ^ k) (hdp : hdr.DEBUG_Pointer = ptr)
    (hnotfreed : freed_header_check mem (ptr - H) H = false)
    (hguard1 : guard_check mem (ptr - NO_MANS_LAND_SIZE) = true)
    (hguard2 : guard_check mem (ptr + hdr.Size) = true) :
    verify_header_unlocked mem (ptr - H) hdr H = .ok () := by
  have h3 : (2 : Nat) ^ 3 ≤ 2 ^ k := Nat.pow_le_pow_right (by norm_num) hk3
  have hpp : ptr - H + H = ptr := by omega
  have hpos1 : ptr - H + H - NO_MANS_LAND_SIZE = ptr - NO_MANS_LAND_SIZE := by rw [hpp]
  unfold verify_header_unlocked
  rw [hnotfreed, hal, hpos1, hdp, hpp, hguard1, hguard2]
  have hne0 : (2 ^ k : Nat) ≠ 0 := by positivity
  have hnlt : ¬ ((2 ^ k : Nat) < POINTER_SIZE) := by
    unfold POINTER_SIZE
    norm_num at h3 ⊢
    omega
  simp [hne0, hnlt, is_pow_of_2_two_pow]

end Lstd

/-- C6 counterexample: with double-free detection off (release build), a second
`general_free` of the same pointer is NOT a no-op.  A release-build
`general_free` performs no fill and no unlink — the memory and the header bytes
are unchanged by the first call — so the second call takes exactly the same
path and issues the owning allocator's FREE again with the same raw block and
size (trace `[(8, 64)]`, not `[]`): a double free forwarded straight to the
allocator, undefined behaviour for the heap-backed allocator. -/
theorem double_free_release_repeats_free :
    Lstd.general_free false 40 (fun _ => 0) (some 48)
        ⟨0, 0, 16, 0, 48, 8, 0⟩
      = .ok ((fun _ => 0), [(8, 64)])
    ∧ ([(8, 64)] : List (Nat × Nat)) ≠ [] :=
  ⟨rfl, by decide⟩

/-- C6 (amended): with detection on (`DEBUG_MEMORY`, block not yet reused), the
first `general_free` overwrites the whole raw block — header included — with
`DEAD_LAND_FILL` before invoking the allocator's FREE, and the second
`general_free` of the same pointer hits the `verify_header` freed-pattern check
and triggers the documented assertion.  (With detection off the second call
instead repeats the allocator FREE — see the counterexample — a no-op only for
allocators whose FREE ignores its argument.) -/
theorem double_free_debug_asserts (mem : Lstd.Mem) (ptr H k : Nat)
    (hdr : Lstd.allocation_header)
    (hk3 : 3 ≤ k)
    (hal : hdr.Alignment = 2 ^ k)
    (hap : hdr.AlignmentPadding < 2 ^ k)
    (hptr : H + hdr.AlignmentPadding ≤ ptr)
    (hdp : hdr.DEBUG_Pointer = ptr)
    (hnotfreed : Lstd.freed_header_check mem (ptr - H) H = false)
    (hguard1 : Lstd.guard_check mem (ptr - Lstd.NO_MANS_LAND_SIZE) = true)
    (hguard2 : Lstd.guard_check mem (ptr + hdr.Size) = true) :
    Lstd.general_free true H mem (some ptr) hdr
      = .ok (Lstd.fill_memory mem (ptr - H - hdr.AlignmentPadding) Lstd.DEAD_LAND_FILL
          (hdr.Size + (hdr.Alignment + H + H % hdr.Alignment) + Lstd.NO_MANS_LAND_SIZE),
          [(ptr - H - hdr.AlignmentPadding,
            hdr.Size + (hdr.Alignment + H + H % hdr.Alignment) + Lstd.NO_MANS_LAND_SIZE)])
    ∧ Lstd.general_free true H
        (Lstd.fill_memory mem (ptr - H - hdr.AlignmentPadding) Lstd.DEAD_LAND_FILL
          (hdr.Size + (hdr.Alignment + H + H % hdr.Alignment) + Lstd.NO_MANS_LAND_SIZE))
        (some ptr) hdr
      = .error "Trying to access freed memory!" := by
  have hver := Lstd.verify_header_ok mem ptr H k hdr hk3 (by omega) hal hdp
    hnotfreed hguard1 hguard2
  have hap2 : hdr.AlignmentPadding < hdr.Alignment := by
    rw [hal]
    exact hap
  have hfreed1 : Lstd.freed_header_check
      (Lstd.fill_memory mem (ptr - H - hdr.AlignmentPadding) Lstd.DEAD_LAND_FILL
        (hdr.Size + (hdr.Alignment + H + H % hdr.Alignment) + Lstd.NO_MANS_LAND_SIZE))
      (ptr - H) H = true := by
    unfold Lstd.freed_header_check
    rw [List.all_eq_true]
    intro i hi
    rw [List.mem_range] at hi
    have hcell : Lstd.fill_memory mem (ptr - H - hdr.AlignmentPadding) Lstd.DEAD_LAND_FILL
        (hdr.Size + (hdr.Alignment + H + H % hdr.Alignment) + Lstd.NO_MANS_LAND_SIZE)
        (ptr - H + i) = Lstd.DEAD_LAND_FILL := by
      unfold Lstd.fill_memory
      rw [if_pos ?bnd]
      case bnd =>
        unfold Lstd.NO_MANS_LAND_SIZE
        omega
    rw [hcell]
    decide
  constructor
  · unfold Lstd.general_free
    dsimp only
    rw [hver]
    simp
  · unfold Lstd.general_free
    dsimp only
    unfold Lstd.verify_header_unlocked
    rw [hfreed1]
    simp

/-- C6 witness for the amended statement: debug build with `H = 40`, an 8-byte
aligned allocation of 16 bytes at user pointer 48, and memory filled with the
guard pattern. -/
theorem double_free_debug_asserts_witness :
    (3 ≤ 3
      ∧ (⟨0, 0, 16, 0, 48, 8, 0⟩ : Lstd.allocation_header).Alignment = 2 ^ 3
      ∧ (⟨0, 0, 16, 0, 48, 8, 0⟩ : Lstd.allocation_header).AlignmentPadding < 2 ^ 3
      ∧ 40 + (⟨0, 0, 16, 0, 48, 8, 0⟩ : Lstd.allocation_header).AlignmentPadding ≤ 48
      ∧ (⟨0, 0, 16, 0, 48, 8, 0⟩ : Lstd.allocation_header).DEBUG_Pointer = 48
      ∧ Lstd.freed_header_check (fun _ => 0xfd) (48 - 40) 40 = false
      ∧ Lstd.guard_check (fun _ => 0xfd) (48 - Lstd.NO_MANS_LAND_SIZE) = true
      ∧ Lstd.guard_check (fun _ => 0xfd)
          (48 + (⟨0, 0, 16, 0, 48, 8, 0⟩ : Lstd.allocation_header).Size) = true)
    ∧ (Lstd.general_free true 40 (fun _ => 0xfd) (some 48)
        (⟨0, 0, 16, 0, 48, 8, 0⟩ : Lstd.allocation_header)
      = .ok (Lstd.fill_memory (fun _ => 0xfd)
          (48 - 40 - (⟨0, 0, 16, 0, 48, 8, 0⟩ : Lstd.allocation_header).AlignmentPadding)
          Lstd.DEAD_LAND_FILL
          ((⟨0, 0, 16, 0, 48, 8, 0⟩ : Lstd.allocation_header).Size
            + ((⟨0, 0, 16, 0, 48, 8, 0⟩ : Lstd.allocation_header).Alignment + 40
              + 40 % (⟨0, 0, 16, 0, 48, 8, 0⟩ : Lstd.allocation_header).Alignment)
            + Lstd.NO_MANS_LAND_SIZE),
          [(48 - 40 - (⟨0, 0, 16, 0, 48, 8, 0⟩ : Lstd.allocation_header).AlignmentPadding,
            (⟨0, 0, 16, 0, 48, 8, 0⟩ : Lstd.allocation_header).Size
              + ((⟨0, 0, 16, 0, 48, 8, 0⟩ : Lstd.allocation_header).Alignment + 40
                + 40 % (⟨0, 0, 16, 0, 48, 8, 0⟩ : Lstd.allocation_header).Alignment)
              + Lstd.NO_MANS_LAND_SIZE)])
    ∧ Lstd.general_free true 40
        (Lstd.fill_memory (fun _ => 0xfd)
          (48 - 40 - (⟨0, 0, 16, 0, 48, 8, 0⟩ : Lstd.allocation_header).AlignmentPadding)
          Lstd.DEAD_LAND_FILL
          ((⟨0, 0, 16, 0, 48, 8, 0⟩ : Lstd.allocation_header).Size
            + ((⟨0, 0, 16, 0, 48, 8, 0⟩ : Lstd.allocation_header).Alignment + 40
              + 40 % (⟨0, 0, 16, 0, 48, 8, 0⟩ : Lstd.allocation_header).Alignment)
            + Lstd.NO_MANS_LAND_SIZE))
        (some 48) (⟨0, 0, 16, 0, 48, 8, 0⟩ : Lstd.allocation_header)
      = .error "Trying to access freed memory!") :=
  ⟨by decide,
   double_free_debug_asserts (fun _ => 0xfd) 48 40 3 ⟨0, 0, 16, 0, 48, 8, 0⟩
     (by decide) (by decide) (by decide) (by decide) (by decide) (by decide)
     (by decide) (by decide)⟩

/-!  ## Reallocation prefix-preservation claim  -/

namespace Lstd

/-- Reading outside a fill region sees the old memory. -/
theorem fill_memory_outside (m : Mem) (dest v n a : Nat) (h : a < dest ∨ dest + n ≤ a) :
    fill_memory m dest v n a = m a := by
  unfold fill_memory
  rw [if_neg]
  omega

/-- Reading outside a copy's destination sees the old memory. -/
theorem copy_memory_outside (m : Mem) (dest src n a : Nat) (h : a < dest ∨ dest + n ≤ a) :
    copy_memory m dest src n a = m a := by
  unfold copy_memory
  rw [if_neg]
  omega

/-- Reading inside a copy's destination sees the source bytes. -/
theorem copy_memory_inside (m : Mem) (dest src n a : Nat) (h1 : dest ≤ a) (h2 : a < dest + n) :
    copy_memory m dest src n a = m (src + (a - dest)) := by
  unfold copy_memory
  rw [if_pos ⟨h1, h2⟩]

/-- The tail of `general_reallocate` leaves `p + i` (a byte of the preserved
user prefix) untouched whenever the shrink `DEAD_LAND_FILL` — the only write
not anchored at the returned pointer `p` — cannot reach it: growing, or the
stray fill region `[headerAddr + oldSize, headerAddr + 2·oldSize − newSize)`
lies entirely on one side of it, or a release build (where the shrink fill
does not exist). -/
theorem realloc_tail_preserves (debug : Bool) (mem : Mem)
    (p headerAddr oldUserSize newUserSize oldSize newSize : Nat) (doInit0 : Bool) (i : Nat)
    (hio : i < oldUserSize) (hin : i < newUserSize)
    (hshr : oldSize < newSize ∨ p + oldUserSize ≤ headerAddr + oldSize
      ∨ headerAddr + oldSize + (oldSize - newSize) ≤ p ∨ debug = false) :
    realloc_tail debug mem p headerAddr oldUserSize newUserSize oldSize newSize doInit0 (p + i)
      = mem (p + i) := by
  rcases hshr with h | h | h | h
  · unfold realloc_tail fill_memory
    simp only [ite_apply]
    split_ifs <;> first | rfl | omega
  · unfold realloc_tail fill_memory
    simp only [ite_apply]
    split_ifs <;> first | rfl | omega
  · unfold realloc_tail fill_memory
    simp only [ite_apply]
    split_ifs <;> first | rfl | omega
  · subst h
    unfold realloc_tail fill_memory
    simp only [Bool.false_eq_true, if_false, ite_apply]
    split_ifs <;> first | rfl | omega

/-- The memory effect of `encode_header` with the wrap-around mods removed
(supported range). -/
theorem encode_header_mem_eq (debug : Bool) (H : Nat) (mem : Mem)
    (p userSize k f c : Nat) (doInit0 : Bool) (hk : k ≤ 13) (hH : 0 < H)
    (hH16 : H + 2 ^ k ≤ 2 ^ 16) (hp64 : p + 2 ^ 16 ≤ 2 ^ 64) :
    (encode_header debug H mem p userSize (2 ^ k) f c doInit0).2
      = (let userPtr := p + calculate_padding_for_pointer_with_header p (2 ^ k) H
         let mem1 :=
           if doInit0 then zero_memory mem userPtr userSize
           else if debug then fill_memory mem userPtr CLEAN_LAND_FILL userSize
           else mem
         if debug then
           fill_memory (fill_memory mem1 (userPtr - NO_MANS_LAND_SIZE) NO_MANS_LAND_FILL
             NO_MANS_LAND_SIZE) (userPtr + userSize) NO_MANS_LAND_FILL NO_MANS_LAND_SIZE
         else mem1) := by
  have hka : (2 : Nat) ^ k ≤ 2 ^ 13 := Nat.pow_le_pow_right (by norm_num) hk
  obtain ⟨hge, hlt, _⟩ := padding_wh_spec p k H hk hH hH16 (by omega)
  set pwh := calculate_padding_for_pointer_with_header p (2 ^ k) H with hpwh
  have hH32 : H % 2 ^ 32 = H := Nat.mod_eq_of_lt (by omega)
  have hap : (pwh + 2 ^ 32 - H % 2 ^ 32) % 2 ^ 32 = pwh - H := by
    rw [hH32]
    have h1 : pwh + 2 ^ 32 - H = (pwh - H) + 2 ^ 32 := by omega
    rw [h1, Nat.add_mod_right, Nat.mod_eq_of_lt (by omega)]
  have hha : (p + (pwh - H)) % 2 ^ 64 = p + (pwh - H) := Nat.mod_eq_of_lt (by omega)
  have hup : (p + (pwh - H) + H) % 2 ^ 64 = p + pwh := by
    rw [Nat.mod_eq_of_lt (by omega)]
    omega
  unfold encode_header
  dsimp only
  rw [← hpwh, hap, hha, hup]

/-- `encode_header` writes only inside
`[p, p + padding + userSize + guard)`: reading outside sees the old memory. -/
theorem encode_header_mem_outside (debug : Bool) (H : Nat) (mem : Mem)
    (p userSize k f c : Nat) (doInit0 : Bool) (hk : k ≤ 13) (hH : 4 ≤ H)
    (hH16 : H + 2 ^ k ≤ 2 ^ 16) (hp64 : p + 2 ^ 16 ≤ 2 ^ 64) (x : Nat)
    (hx : x < p ∨ p + (calculate_padding_for_pointer_with_header p (2 ^ k) H + userSize
        + (if debug then NO_MANS_LAND_SIZE else 0)) ≤ x) :
    (encode_header debug H mem p userSize (2 ^ k) f c doInit0).2 x = mem x := by
  obtain ⟨hge, hlt, _⟩ := padding_wh_spec p k H hk (by omega) hH16 (by
    have hka : (2 : Nat) ^ k ≤ 2 ^ 13 := Nat.pow_le_pow_right (by norm_num) hk
    omega)
  rw [encode_header_mem_eq debug H mem p userSize k f c doInit0 hk (by omega) hH16 hp64]
  set pwh := calculate_padding_for_pointer_with_header p (2 ^ k) H with hpwh
  have hn4 : NO_MANS_LAND_SIZE = 4 := rfl
  dsimp only
  by_cases hdbg : debug = true
  · simp only [if_pos hdbg] at hx ⊢
    rw [fill_memory_outside _ _ _ _ _ (by omega), fill_memory_outside _ _ _ _ _ (by omega),
      ite_apply]
    split_ifs
    · unfold zero_memory
      exact fill_memory_outside _ _ _ _ _ (by omega)
    · exact fill_memory_outside _ _ _ _ _ (by omega)
  · simp only [if_neg hdbg] at hx ⊢
    rw [ite_apply]
    split_ifs
    · unfold zero_memory
      exact fill_memory_outside _ _ _ _ _ (by omega)
    · rfl

end Lstd

/-- C2 counterexample: in a debug build, shrinking a 64-byte allocation at
user pointer 100 to 8 bytes via the move path, with the fresh block at 176
disjoint from (and adjacent to) the old raw block, the stray shrink
`DEAD_LAND_FILL` of line 414 — based at the stale OLD header plus `oldSize` —
lands inside the new block and overwrites the copied prefix: byte 0 of the
returned pointer reads `DEAD_LAND_FILL`, not the original byte. -/
theorem general_reallocate_shrink_move_clobbers :
    ((3 : Nat) ≤ 13 ∧ (4 : Nat) ≤ 40 ∧ 40 + 2 ^ 3 ≤ 2 ^ 16
      ∧ (⟨5, 6, 64, 0, 100, 8, 4⟩ : Lstd.allocation_header).Alignment = 2 ^ 3
      ∧ (⟨5, 6, 64, 0, 100, 8, 4⟩ : Lstd.allocation_header).AlignmentPadding < 2 ^ 3
      ∧ 40 + (⟨5, 6, 64, 0, 100, 8, 4⟩ : Lstd.allocation_header).AlignmentPadding ≤ 100
      ∧ 176 + 2 ^ 16 ≤ 2 ^ 64
      ∧ 100 - 40 - (⟨5, 6, 64, 0, 100, 8, 4⟩ : Lstd.allocation_header).AlignmentPadding
          + ((⟨5, 6, 64, 0, 100, 8, 4⟩ : Lstd.allocation_header).Size
             + (40 + 8 + 40 % 8) + Lstd.NO_MANS_LAND_SIZE) ≤ 176)
    ∧ ¬ (∀ i < min (⟨5, 6, 64, 0, 100, 8, 4⟩ : Lstd.allocation_header).Size 8,
        (Lstd.general_reallocate true 40 (fun a => a % 256) 100 ⟨5, 6, 64, 0, 100, 8, 4⟩
            8 false false 176).1
          ((Lstd.general_reallocate true 40 (fun a => a % 256) 100 ⟨5, 6, 64, 0, 100, 8, 4⟩
            8 false false 176).2.1 + i)
        = (fun a : Nat => a % 256) (100 + i)) := by
  decide

/-- C2 (amended): `general_reallocate(ptr, new)` returns a (possibly
relocated) pointer whose first `min(old, new)` bytes equal the original bytes
in a release build, for every in-place RESIZE, and for a growing move — but
NOT for a debug shrinking move: there line 414 `DEAD_LAND_FILL`s
`oldSize − newSize` bytes at `oldSize` past the stale old header (`header` is
never reassigned on the move path), an out-of-bounds write that can land
inside the freshly ALLOCATEd block and clobber the copied prefix
(`general_reallocate_shrink_move_clobbers`).  Proved here with the debug
shrinking move excluded, for any header produced by the front end
(power-of-two alignment in the documented range, padding below the alignment)
and a fresh block disjoint from the still-live old block. -/
theorem general_reallocate_preserves_prefix (debug : Bool) (H : Nat) (mem : Lstd.Mem)
    (ptr : Nat) (hdr : Lstd.allocation_header) (newUserSize : Nat) (doInit0 : Bool)
    (resizeOk : Bool) (newBlock : Nat) (k : Nat)
    (hk : k ≤ 13) (hH : 4 ≤ H) (hH16 : H + 2 ^ k ≤ 2 ^ 16)
    (hal : hdr.Alignment = 2 ^ k)
    (hap : hdr.AlignmentPadding < 2 ^ k)
    (hptr : H + hdr.AlignmentPadding ≤ ptr)
    (hnb : newBlock + 2 ^ 16 ≤ 2 ^ 64)
    (hdisj : resizeOk = false →
      ptr - H - hdr.AlignmentPadding
          + (hdr.Size + (H + hdr.Alignment + H % hdr.Alignment)
             + (if debug then Lstd.NO_MANS_LAND_SIZE else 0)) ≤ newBlock
        ∨ newBlock + (newUserSize + (H + hdr.Alignment + H % hdr.Alignment)
             + (if debug then Lstd.NO_MANS_LAND_SIZE else 0))
          ≤ ptr - H - hdr.AlignmentPadding)
    (hstray : debug = true → resizeOk = false → hdr.Size ≤ newUserSize) :
    ∀ i < min hdr.Size newUserSize,
      (Lstd.general_reallocate debug H mem ptr hdr newUserSize doInit0 resizeOk newBlock).1
        ((Lstd.general_reallocate debug H mem ptr hdr newUserSize doInit0 resizeOk newBlock).2.1
          + i)
      = mem (ptr + i) := by
  intro i hi
  have hio : i < hdr.Size := by omega
  have hin : i < newUserSize := by omega
  have hka : (2 : Nat) ^ k ≤ 2 ^ 13 := Nat.pow_le_pow_right (by norm_num) hk
  have hgd : (if debug then Lstd.NO_MANS_LAND_SIZE else 0) = 4
      ∨ (if debug then Lstd.NO_MANS_LAND_SIZE else 0) = 0 := by
    cases debug
    · exact Or.inr rfl
    · exact Or.inl rfl
  by_cases hsz : hdr.Size = newUserSize
  · unfold Lstd.general_reallocate
    rw [if_pos hsz]
  · unfold Lstd.general_reallocate
    rw [if_neg hsz]
    dsimp only
    rw [hal]
    cases hres : resizeOk with
    | true =>
      rw [if_pos rfl]
      dsimp only
      exact Lstd.realloc_tail_preserves _ _ _ _ _ _ _ _ _ _ hio hin
        (Or.inr (Or.inl (by rcases hgd with h | h <;> omega)))
    | false =>
      rw [if_neg Bool.false_ne_true]
      dsimp only
      specialize hdisj hres
      rw [hal] at hdisj
      obtain ⟨hu, hhd, hhu, hs, hal2, hap2⟩ :=
        Lstd.encode_header_spec debug H mem newBlock newUserSize k hdr.Function hdr.Context
          doInit0 hk (by omega) hH16 hnb
      obtain ⟨hge, hlt, _⟩ := Lstd.padding_wh_spec newBlock k H hk (by omega) hH16 (by omega)
      refine Eq.trans
        (Lstd.realloc_tail_preserves _ _ _ _ _ _ _ _ _ _ hio hin (by
          cases hdbg : debug with
          | false => exact Or.inr (Or.inr (Or.inr rfl))
          | true =>
            have hgrow := hstray hdbg hres
            exact Or.inl (by omega))) ?_
      rw [ite_apply, Lstd.fill_memory_outside _ _ _ _ _ (by
          rcases hdisj with h | h <;> rcases hgd with hg | hg <;> omega), ite_self,
        Lstd.copy_memory_inside _ _ _ _ _ (by omega) (by omega),
        show (Lstd.encode_header debug H mem newBlock newUserSize (2 ^ k) hdr.Function
            hdr.Context doInit0).1.userPtr + i
          - (Lstd.encode_header debug H mem newBlock newUserSize (2 ^ k) hdr.Function
            hdr.Context doInit0).1.userPtr = i from by omega]
      exact Lstd.encode_header_mem_outside debug H mem newBlock newUserSize k hdr.Function
        hdr.Context doInit0 hk hH hH16 hnb (ptr + i)
        (by rcases hdisj with h | h <;> rcases hgd with hg | hg <;> omega)

/-- C2 witness for the amended statement: debug build, a 16-byte allocation at
user pointer 100 grown to 32 bytes by moving to the fresh block at 1000, over
a memory holding distinctive bytes. -/
theorem general_reallocate_preserves_prefix_witness :
    ((3 : Nat) ≤ 13 ∧ (4 : Nat) ≤ 40 ∧ 40 + 2 ^ 3 ≤ 2 ^ 16
      ∧ (⟨5, 6, 16, 0, 0, 8, 0⟩ : Lstd.allocation_header).Alignment = 2 ^ 3
      ∧ (⟨5, 6, 16, 0, 0, 8, 0⟩ : Lstd.allocation_header).AlignmentPadding < 2 ^ 3
      ∧ 40 + (⟨5, 6, 16, 0, 0, 8, 0⟩ : Lstd.allocation_header).AlignmentPadding ≤ 100
      ∧ 1000 + 2 ^ 16 ≤ 2 ^ 64
      ∧ 100 - 40 - (⟨5, 6, 16, 0, 0, 8, 0⟩ : Lstd.allocation_header).AlignmentPadding
          + ((⟨5, 6, 16, 0, 0, 8, 0⟩ : Lstd.allocation_header).Size
             + (40 + 8 + 40 % 8) + Lstd.NO_MANS_LAND_SIZE) ≤ 1000
      ∧ (⟨5, 6, 16, 0, 0, 8, 0⟩ : Lstd.allocation_header).Size ≤ 32)
    ∧ ∀ i < min (⟨5, 6, 16, 0, 0, 8, 0⟩ : Lstd.allocation_header).Size 32,
      (Lstd.general_reallocate true 40 (fun a => a % 256) 100 ⟨5, 6, 16, 0, 0, 8, 0⟩
          32 false false 1000).1
        ((Lstd.general_reallocate true 40 (fun a => a % 256) 100 ⟨5, 6, 16, 0, 0, 8, 0⟩
          32 false false 1000).2.1 + i)
      = (fun a => a % 256) (100 + i) :=
  ⟨by decide,
   general_reallocate_preserves_prefix true 40 (fun a => a % 256) 100 ⟨5, 6, 16, 0, 0, 8, 0⟩
     32 false false 1000 3 (by decide) (by decide) (by decide) (by decide) (by decide)
     (by decide) (by decide) (fun _ => by decide) (fun _ _ => by decide)⟩

/-!  ## Debug tracker claims  -/

namespace Tracker

/-- The spine of the list is determined by the head and the `next` pointers. -/
theorem chain_next_eq {n : NodeMap} :
    ∀ {h p l p2 l2}, chain n h p l → chain n h p2 l2 → l = l2 := by
  intro h p l p2 l2 hc1
  induction hc1 generalizing p2 l2 with
  | nil q =>
    intro hc2
    cases hc2
    rfl
  | cons id q nx l hid htail ih =>
    intro hc2
    cases hc2
    rename_i nx2 l2x htail2 hid2
    rw [hid] at hid2
    injection hid2 with he
    injection he with he1 he2
    subst he2
    rw [ih htail2]

/-- Every decomposition point of a chain yields a chain for its tail. -/
theorem chain_suffix {n : NodeMap} :
    ∀ (l1 : List Nat) {x l2 h p}, chain n h p (l1 ++ x :: l2) →
      ∃ pv nx, n x = some ⟨pv, nx⟩ ∧ chain n nx (some x) l2 := by
  intro l1
  induction l1 with
  | nil =>
    intro x l2 h p hc
    cases hc
    rename_i nx hid htail
    exact ⟨p, nx, hid, htail⟩
  | cons w l1 ih =>
    intro x l2 h p hc
    cases hc
    rename_i nx hid htail
    exact ih htail

/-- A chain never repeats a node. -/
theorem chain_nodup {n : NodeMap} : ∀ {h p l}, chain n h p l → l.Nodup := by
  intro h p l hc
  induction hc with
  | nil q => exact List.nodup_nil
  | cons id q nx l hid htail ih =>
    rw [List.nodup_cons]
    refine ⟨?_, ih⟩
    intro hmem
    obtain ⟨l1, l2, rfl⟩ := List.append_of_mem hmem
    obtain ⟨pv, nx2, hid2, htail2⟩ := chain_suffix l1 htail
    rw [hid] at hid2
    injection hid2 with he
    injection he with he1 he2
    subst he2
    have hlen := chain_next_eq htail htail2
    have : (l1 ++ id :: l2).length = l2.length := by rw [hlen]
    simp at this
    omega

/-- Chains only look at their own nodes: updating others preserves them. -/
theorem chain_congr {n n2 : NodeMap} :
    ∀ {h p l}, (∀ x ∈ l, n2 x = n x) → chain n h p l → chain n2 h p l := by
  intro h p l hagree hc
  induction hc with
  | nil q => exact chain.nil q
  | cons id q nx l hid htail ih =>
    refine chain.cons id q nx l ?_ ?_
    · rw [hagree id (List.mem_cons_self id l)]
      exact hid
    · exact ih fun x hx => hagree x (List.mem_cons_of_mem id hx)

/-- The stored `prev` of the element at a decomposition point: the chain's
entry predecessor for the first element, otherwise the preceding element. -/
theorem chain_prev_at {n : NodeMap} :
    ∀ (l1 : List Nat) {x l2 h p}, chain n h p (l1 ++ x :: l2) →
      (l1 = [] ∧ ∃ nx, n x = some ⟨p, nx⟩)
      ∨ (∃ l0 w, l1 = l0 ++ [w] ∧ ∃ nx, n x = some ⟨some w, nx⟩) := by
  intro l1
  induction l1 with
  | nil =>
    intro x l2 h p hc
    cases hc
    rename_i nx hid htail
    exact Or.inl ⟨rfl, nx, hid⟩
  | cons w l1 ih =>
    intro x l2 h p hc
    cases hc
    rename_i nx hid htail
    rcases ih htail with ⟨h1, nx2, hid2⟩ | ⟨l0, w2, hl0, nx2, hid2⟩
    · subst h1
      exact Or.inr ⟨[], w, rfl, nx2, hid2⟩
    · exact Or.inr ⟨w :: l0, w2, by rw [hl0]; rfl, nx2, hid2⟩

/-- A nonempty chain starts at its first element. -/
theorem chain_head_eq {n : NodeMap} {h p : Option Nat} {x : Nat} {l : List Nat}
    (hc : chain n h p (x :: l)) : h = some x := by
  cases hc
  rfl

/-- Splicing a finished chain onto a partial traversal. -/
theorem chainTo_chain {n : NodeMap} :
    ∀ {h p l1 m q l2}, chainTo n h p l1 m q → chain n m q l2 →
      chain n h p (l1 ++ l2) := by
  intro h p l1 m q l2 ht
  induction ht with
  | nil h p => intro hc; exact hc
  | cons id p nx m q l hid htail ih =>
    intro hc
    exact chain.cons id p nx (l ++ l2) hid (ih hc)

/-- Splitting a chain at an append point into a partial traversal and a
finished chain. -/
theorem chain_split {n : NodeMap} :
    ∀ (l1 : List Nat) {h p l2}, chain n h p (l1 ++ l2) →
      ∃ m q, chainTo n h p l1 m q ∧ chain n m q l2 := by
  intro l1
  induction l1 with
  | nil => intro h p l2 hc; exact ⟨h, p, chainTo.nil h p, hc⟩
  | cons w l1 ih =>
    intro h p l2 hc
    cases hc
    rename_i nx hid htail
    obtain ⟨m, q, ht, hc2⟩ := ih htail
    exact ⟨m, q, chainTo.cons w p nx m q l1 hid ht, hc2⟩

/-- Splitting a partial traversal at an append point. -/
theorem chainTo_split {n : NodeMap} :
    ∀ (l1 : List Nat) {h p l2 m q}, chainTo n h p (l1 ++ l2) m q →
      ∃ m2 q2, chainTo n h p l1 m2 q2 ∧ chainTo n m2 q2 l2 m q := by
  intro l1
  induction l1 with
  | nil => intro h p l2 m q ht; exact ⟨h, p, chainTo.nil h p, ht⟩
  | cons w l1 ih =>
    intro h p l2 m q ht
    cases ht
    rename_i nx hid htail
    obtain ⟨m2, q2, ht1, ht2⟩ := ih htail
    exact ⟨m2, q2, chainTo.cons w p nx m2 q2 l1 hid ht1, ht2⟩

/-- Partial traversals only look at their own nodes. -/
theorem chainTo_congr {n n2 : NodeMap} :
    ∀ {h p l m q}, (∀ x ∈ l, n2 x = n x) → chainTo n h p l m q →
      chainTo n2 h p l m q := by
  intro h p l m q hagree ht
  induction ht with
  | nil h p => exact chainTo.nil h p
  | cons id p nx m q l hid htail ih =>
    refine chainTo.cons id p nx m q l ?_ ?_
    · rw [hagree id (List.mem_cons_self id l)]
      exact hid
    · exact ih fun x hx => hagree x (List.mem_cons_of_mem id hx)

/-- In a duplicate-free chain a nonempty left part shields the head from the
separator. -/
theorem chain_head_not_sep {n : NodeMap} {h p : Option Nat} {x : Nat}
    {l1 l2 : List Nat} (hc : chain n h p (l1 ++ x :: l2))
    (hnd : (l1 ++ x :: l2).Nodup) (hne : l1 ≠ []) : h ≠ some x := by
  cases l1 with
  | nil => exact absurd rfl hne
  | cons w l1p =>
    have hh := chain_head_eq hc
    rw [hh]
    intro he
    injection he with he
    subst he
    rw [List.cons_append, List.nodup_cons] at hnd
    exact hnd.1 (List.mem_append_right l1p (List.mem_cons_self w l2))

/-- An empty partial traversal goes nowhere. -/
theorem chainTo_nil_eq {n : NodeMap} {h p m q : Option Nat}
    (ht : chainTo n h p [] m q) : m = h ∧ q = p := by
  cases ht
  exact ⟨rfl, rfl⟩

/-- Pointwise value of `setNode` at the touched slot. -/
theorem setNode_self (m : NodeMap) (id : Nat) (nd : DllNode) :
    setNode m id nd id = some nd := by
  simp [setNode]

/-- `DEBUG_add_header` on a freshly encoded header pushes it at the front of
the tracker list. -/
theorem add_correct (s : TrackerState) (id : Nat) (l : List Nat)
    (hc : chain s.nodes s.head none l) (hfresh : id ∉ l) :
    chain (add_header (encode_node s id) id).nodes
      (add_header (encode_node s id) id).head none (id :: l) := by
  have hnd := chain_nodup hc
  cases hh : s.head with
  | none =>
    rw [hh] at hc
    cases hc
    have hhead : (add_header (encode_node s id) id).head = some id := by
      simp [add_header]
    have hid2 : (add_header (encode_node s id) id).nodes id = some ⟨none, none⟩ := by
      simp [add_header, encode_node, setNode, hh]
    rw [hhead]
    exact chain.cons id none none [] hid2 (chain.nil (some id))
  | some h0 =>
    rw [hh] at hc
    cases hc
    rename_i nh lt htail hidh
    have hid_ne : h0 ≠ id := by
      intro he
      exact hfresh (by rw [← he]; exact List.mem_cons_self h0 lt)
    have hhead : (add_header (encode_node s id) id).head = some id := by
      simp [add_header]
    have hid2 : (add_header (encode_node s id) id).nodes id = some ⟨none, some h0⟩ := by
      simp [add_header, encode_node, setNode, hh, hidh, hid_ne, Ne.symm hid_ne]
    have hid3 : (add_header (encode_node s id) id).nodes h0 = some ⟨some id, nh⟩ := by
      simp [add_header, encode_node, setNode, hh, hidh, hid_ne, Ne.symm hid_ne]
    have hagree : ∀ x ∈ lt, (add_header (encode_node s id) id).nodes x = s.nodes x := by
      intro x hx
      have hx_ne_id : x ≠ id := by
        intro he
        exact hfresh (by rw [← he]; exact List.mem_cons_of_mem h0 hx)
      have hx_ne_h0 : x ≠ h0 := by
        intro he
        rw [List.nodup_cons] at hnd
        exact hnd.1 (by rw [← he]; exact hx)
      simp [add_header, encode_node, setNode, hh, hidh, hid_ne, hx_ne_id, hx_ne_h0]
    rw [hhead]
    exact chain.cons id none (some h0) (h0 :: lt) hid2
      (chain.cons h0 (some id) nh lt hid3 (chain_congr hagree htail))

/-- `DEBUG_unlink_header` removes exactly the freed header from the tracker
list, stitching its neighbours (and the head pointer) together. -/
theorem unlink_correct (s : TrackerState) (id : Nat) (l1 l2 : List Nat)
    (hc : chain s.nodes s.head none (l1 ++ id :: l2)) :
    chain (unlink_header s id).nodes (unlink_header s id).head none (l1 ++ l2) := by
  have hnd := chain_nodup hc
  obtain ⟨m, q, ht1, hc2⟩ := chain_split l1 hc
  cases hc2
  rename_i nx hid htail
  rcases List.eq_nil_or_concat l1 with rfl | ⟨l0, w, hcat⟩
  · obtain ⟨hm, hq⟩ := chainTo_nil_eq ht1
    subst hq
    cases l2 with
    | nil =>
      cases htail
      have hhead : (unlink_header s id).head = none := by
        simp [unlink_header, hid, ← hm]
      have hnodes : (unlink_header s id).nodes = s.nodes := by
        simp [unlink_header, hid]
      rw [hhead, hnodes]
      exact chain.nil none
    | cons y l2p =>
      cases htail
      rename_i ny hidy htail2
      have hynl : y ∉ l2p := by
        rw [List.nil_append, List.nodup_cons, List.nodup_cons] at hnd
        exact hnd.2.1
      have hhead : (unlink_header s id).head = some y := by
        simp [unlink_header, hid, ← hm]
      have hidy2 : (unlink_header s id).nodes y = some ⟨none, ny⟩ := by
        simp [unlink_header, hid, hidy, setNode]
      have hagree : ∀ x ∈ l2p, (unlink_header s id).nodes x = s.nodes x := by
        intro x hx
        have hxy : x ≠ y := by
          intro he
          exact hynl (by rw [← he]; exact hx)
        simp [unlink_header, hid, hidy, setNode, hxy]
      rw [hhead]
      exact chain.cons y none ny l2p hidy2 (chain_congr hagree htail2)
  · rw [List.concat_eq_append] at hcat
    subst hcat
    obtain ⟨m2, q2, ht0, htw⟩ := chainTo_split l0 ht1
    cases htw
    rename_i nxw hidw htw2
    obtain ⟨hmw, hqw⟩ := chainTo_nil_eq htw2
    subst hqw
    rw [← hmw] at hidw
    have hne_head : s.head ≠ some id := chain_head_not_sep hc hnd (by simp)
    rw [List.nodup_append] at hnd
    obtain ⟨hndl1, hndl2, hdisj⟩ := hnd
    rw [List.nodup_append] at hndl1
    cases l2 with
    | nil =>
      cases htail
      have hhead : (unlink_header s id).head = s.head := by
        simp [unlink_header, hid, hne_head]
      have hidw2 : (unlink_header s id).nodes w = some ⟨q2, none⟩ := by
        simp [unlink_header, hid, hidw, setNode]
      have hagree : ∀ x ∈ l0, (unlink_header s id).nodes x = s.nodes x := by
        intro x hx
        have hxw : x ≠ w := by
          intro he
          exact hndl1.2.2 hx (by rw [he]; exact List.mem_singleton_self w)
        simp [unlink_header, hid, hidw, setNode, hxw]
      have hchain : chain (unlink_header s id).nodes s.head none (l0 ++ [w]) :=
        chainTo_chain (chainTo_congr hagree ht0)
          (chain.cons w q2 none [] hidw2 (chain.nil (some w)))
      rw [hhead, List.append_nil]
      exact hchain
    | cons y l2p =>
      cases htail
      rename_i ny hidy htail2
      have hwy : w ≠ y := by
        intro he
        exact hdisj (List.mem_append_right l0 (List.mem_singleton_self w))
          (by rw [he]; exact List.mem_cons_of_mem id (List.mem_cons_self y l2p))
      rw [List.nodup_cons, List.nodup_cons] at hndl2
      have hyn : y ∉ l2p := hndl2.2.1
      have hhead : (unlink_header s id).head = s.head := by
        simp [unlink_header, hid, hne_head]
      have hidy2 : (unlink_header s id).nodes y = some ⟨some w, ny⟩ := by
        simp [unlink_header, hid, hidy, hidw, setNode, hwy, Ne.symm hwy]
      have hidw2 : (unlink_header s id).nodes w = some ⟨q2, some y⟩ := by
        simp [unlink_header, hid, hidy, hidw, setNode, hwy]
      have hagree2 : ∀ x ∈ l2p, (unlink_header s id).nodes x = s.nodes x := by
        intro x hx
        have hxy : x ≠ y := by
          intro he
          exact hyn (by rw [← he]; exact hx)
        have hxw : x ≠ w := by
          intro he
          exact hdisj (by rw [he]; exact List.mem_append_right l0 (List.mem_singleton_self w))
            (List.mem_cons_of_mem id (List.mem_cons_of_mem y hx))
        simp [unlink_header, hid, hidy, hidw, setNode, hxy, hxw, hwy]
      have hagree0 : ∀ x ∈ l0, (unlink_header s id).nodes x = s.nodes x := by
        intro x hx
        have hxw : x ≠ w := by
          intro he
          exact hndl1.2.2 hx (by rw [he]; exact List.mem_singleton_self w)
        have hxy : x ≠ y := by
          intro he
          exact hdisj (List.mem_append_left [w] hx)
            (by rw [he]; exact List.mem_cons_of_mem id (List.mem_cons_self y l2p))
        simp [unlink_header, hid, hidy, hidw, setNode, hxy, hxw, hwy]
      have hchain : chain (unlink_header s id).nodes s.head none (l0 ++ w :: y :: l2p) :=
        chainTo_chain (chainTo_congr hagree0 ht0)
          (chain.cons w q2 (some y) (y :: l2p) hidw2
            (chain.cons y (some w) ny l2p hidy2 (chain_congr hagree2 htail2)))
      rw [hhead]
      have hl : (l0 ++ [w]) ++ y :: l2p = l0 ++ w :: y :: l2p := by simp
      rw [hl]
      exact hchain

/-- `DEBUG_swap_header` replaces the old header by the (freshly encoded) new
one at the same position of the tracker list. -/
theorem swap_correct (s : TrackerState) (oldId newId : Nat) (l1 l2 : List Nat)
    (hc : chain s.nodes s.head none (l1 ++ oldId :: l2))
    (hnew : newId ∉ l1 ++ oldId :: l2) :
    chain (swap_header s oldId newId).nodes (swap_header s oldId newId).head none
      (l1 ++ newId :: l2) := by
  have hnd := chain_nodup hc
  obtain ⟨m, q, ht1, hc2⟩ := chain_split l1 hc
  cases hc2
  rename_i nx hid htail
  rcases List.eq_nil_or_concat l1 with rfl | ⟨l0, w, hcat⟩
  · obtain ⟨hm, hq⟩ := chainTo_nil_eq ht1
    subst hq
    cases l2 with
    | nil =>
      cases htail
      have hhead : (swap_header s oldId newId).head = some newId := by
        simp [swap_header, hid]
      have hidn : (swap_header s oldId newId).nodes newId = some ⟨none, none⟩ := by
        simp [swap_header, hid, encode_node, setNode]
      rw [hhead]
      exact chain.cons newId none none [] hidn (chain.nil (some newId))
    | cons y l2p =>
      cases htail
      rename_i ny hidy htail2
      have hynew : y ≠ newId := by
        intro he
        exact hnew (by rw [← he]; exact List.mem_cons_of_mem oldId (List.mem_cons_self y l2p))
      have hyn : y ∉ l2p := by
        rw [List.nil_append, List.nodup_cons, List.nodup_cons] at hnd
        exact hnd.2.1
      have hhead : (swap_header s oldId newId).head = some newId := by
        simp [swap_header, hid]
      have hidn : (swap_header s oldId newId).nodes newId = some ⟨none, some y⟩ := by
        simp [swap_header, hid, hidy, encode_node, setNode, hynew, Ne.symm hynew]
      have hidy2 : (swap_header s oldId newId).nodes y = some ⟨some newId, ny⟩ := by
        simp [swap_header, hid, hidy, encode_node, setNode, hynew, Ne.symm hynew]
      have hagree : ∀ x ∈ l2p, (swap_header s oldId newId).nodes x = s.nodes x := by
        intro x hx
        have hxy : x ≠ y := by
          intro he
          exact hyn (by rw [← he]; exact hx)
        have hxn : x ≠ newId := by
          intro he
          refine hnew ?_
          rw [← he]
          exact List.mem_cons_of_mem oldId (List.mem_cons_of_mem y hx)
        simp [swap_header, hid, hidy, encode_node, setNode, hynew, Ne.symm hynew, hxy, hxn]
      rw [hhead]
      exact chain.cons newId none (some y) (y :: l2p) hidn
        (chain.cons y (some newId) ny l2p hidy2 (chain_congr hagree htail2))
  · rw [List.concat_eq_append] at hcat
    subst hcat
    obtain ⟨m2, q2, ht0, htw⟩ := chainTo_split l0 ht1
    cases htw
    rename_i nxw hidw htw2
    obtain ⟨hmw, hqw⟩ := chainTo_nil_eq htw2
    subst hqw
    rw [← hmw] at hidw
    rw [List.nodup_append] at hnd
    obtain ⟨hndl1, hndl2, hdisj⟩ := hnd
    rw [List.nodup_append] at hndl1
    have hwnew : w ≠ newId := by
      intro he
      refine hnew ?_
      rw [← he]
      exact List.mem_append_left (oldId :: l2)
        (List.mem_append_right l0 (List.mem_singleton_self w))
    have hhead : (swap_header s oldId newId).head = s.head := by
      simp [swap_header, hid]
    cases l2 with
    | nil =>
      cases htail
      have hidw2 : (swap_header s oldId newId).nodes w = some ⟨q2, some newId⟩ := by
        simp [swap_header, hid, hidw, encode_node, setNode, hwnew, Ne.symm hwnew]
      have hidn : (swap_header s oldId newId).nodes newId = some ⟨some w, none⟩ := by
        simp [swap_header, hid, hidw, encode_node, setNode, hwnew, Ne.symm hwnew]
      have hagree : ∀ x ∈ l0, (swap_header s oldId newId).nodes x = s.nodes x := by
        intro x hx
        have hxw : x ≠ w := by
          intro he
          exact hndl1.2.2 hx (by rw [he]; exact List.mem_singleton_self w)
        have hxn : x ≠ newId := by
          intro he
          refine hnew ?_
          rw [← he]
          exact List.mem_append_left (oldId :: []) (List.mem_append_left [w] hx)
        simp [swap_header, hid, hidw, encode_node, setNode, hwnew, Ne.symm hwnew, hxw, hxn]
      have hchain : chain (swap_header s oldId newId).nodes s.head none
          (l0 ++ w :: newId :: []) :=
        chainTo_chain (chainTo_congr hagree ht0)
          (chain.cons w q2 (some newId) [newId] hidw2
            (chain.cons newId (some w) none [] hidn (chain.nil (some newId))))
      rw [hhead]
      have hl : (l0 ++ [w]) ++ newId :: [] = l0 ++ w :: newId :: [] := by simp
      rw [hl]
      exact hchain
    | cons y l2p =>
      cases htail
      rename_i ny hidy htail2
      have hwy : w ≠ y := by
        intro he
        exact hdisj (List.mem_append_right l0 (List.mem_singleton_self w))
          (by rw [he]; exact List.mem_cons_of_mem oldId (List.mem_cons_self y l2p))
      have hynew : y ≠ newId := by
        intro he
        refine hnew ?_
        rw [← he]
        exact List.mem_append_right (l0 ++ [w])
          (List.mem_cons_of_mem oldId (List.mem_cons_self y l2p))
      rw [List.nodup_cons, List.nodup_cons] at hndl2
      have hyn : y ∉ l2p := hndl2.2.1
      have hidw2 : (swap_header s oldId newId).nodes w = some ⟨q2, some newId⟩ := by
        simp [swap_header, hid, hidw, hidy, encode_node, setNode, hwnew, Ne.symm hwnew,
          hwy, Ne.symm hwy, hynew, Ne.symm hynew]
      have hidn : (swap_header s oldId newId).nodes newId =
          some ⟨some w, some y⟩ := by
        simp [swap_header, hid, hidw, hidy, encode_node, setNode, hwnew, Ne.symm hwnew,
          hynew, Ne.symm hynew, hwy, Ne.symm hwy]
      have hidy2 : (swap_header s oldId newId).nodes y = some ⟨some newId, ny⟩ := by
        simp [swap_header, hid, hidw, hidy, encode_node, setNode, hwnew, Ne.symm hwnew,
          hynew, Ne.symm hynew, hwy, Ne.symm hwy]
      have hagree2 : ∀ x ∈ l2p, (swap_header s oldId newId).nodes x = s.nodes x := by
        intro x hx
        have hxy : x ≠ y := by
          intro he
          exact hyn (by rw [← he]; exact hx)
        have hxw : x ≠ w := by
          intro he
          exact hdisj (by rw [he]; exact List.mem_append_right l0 (List.mem_singleton_self w))
            (List.mem_cons_of_mem oldId (List.mem_cons_of_mem y hx))
        have hxn : x ≠ newId := by
          intro he
          refine hnew ?_
          rw [← he]
          exact List.mem_append_right (l0 ++ [w])
            (List.mem_cons_of_mem oldId (List.mem_cons_of_mem y hx))
        simp [swap_header, hid, hidw, hidy, encode_node, setNode, hwnew, Ne.symm hwnew,
          hynew, Ne.symm hynew, hwy, Ne.symm hwy, hxy, hxw, hxn]
      have hagree0 : ∀ x ∈ l0, (swap_header s oldId newId).nodes x = s.nodes x := by
        intro x hx
        have hxw : x ≠ w := by
          intro he
          exact hndl1.2.2 hx (by rw [he]; exact List.mem_singleton_self w)
        have hxy : x ≠ y := by
          intro he
          exact hdisj (List.mem_append_left [w] hx)
            (by rw [he]; exact List.mem_cons_of_mem oldId (List.mem_cons_self y l2p))
        have hxn : x ≠ newId := by
          intro he
          refine hnew ?_
          rw [← he]
          exact List.mem_append_left (oldId :: y :: l2p) (List.mem_append_left [w] hx)
        simp [swap_header, hid, hidw, hidy, encode_node, setNode, hwnew, Ne.symm hwnew,
          hynew, Ne.symm hynew, hwy, Ne.symm hwy, hxy, hxw, hxn]
      have hchain : chain (swap_header s oldId newId).nodes s.head none
          (l0 ++ w :: newId :: y :: l2p) :=
        chainTo_chain (chainTo_congr hagree0 ht0)
          (chain.cons w q2 (some newId) (newId :: y :: l2p) hidw2
            (chain.cons newId (some w) (some y) (y :: l2p) hidn
              (chain.cons y (some newId) ny l2p hidy2 (chain_congr hagree2 htail2))))
      rw [hhead]
      have hl : (l0 ++ [w]) ++ newId :: y :: l2p = l0 ++ w :: newId :: y :: l2p := by
        simp
      rw [hl]
      exact hchain

/-- Running a valid event sequence transforms the tracker list as the events
dictate; its length changes by allocations minus frees. -/
theorem tracker_count : ∀ (ops : List AllocOp) (s : TrackerState) (l : List Nat),
    chain s.nodes s.head none l → validOps ops l = true →
    ∃ l2, chain (runOps ops s).nodes (runOps ops s).head none l2 ∧
      l2.length + countFrees ops = l.length + countAllocs ops := by
  intro ops
  induction ops with
  | nil =>
    intro s l hc _
    exact ⟨l, hc, rfl⟩
  | cons op rest ih =>
    intro s l hc hv
    cases op with
    | alloc id =>
      simp only [validOps, Bool.and_eq_true] at hv
      obtain ⟨hfresh0, hv2⟩ := hv
      have hfresh : id ∉ l := by simpa using hfresh0
      obtain ⟨l2, hc2, hlen⟩ := ih (add_header (encode_node s id) id) (id :: l)
        (add_correct s id l hc hfresh) hv2
      refine ⟨l2, hc2, ?_⟩
      simp only [countFrees, countAllocs, List.length_cons] at hlen ⊢
      omega
    | free id =>
      simp only [validOps, Bool.and_eq_true] at hv
      obtain ⟨hmem0, hv2⟩ := hv
      have hmem : id ∈ l := by simpa using hmem0
      obtain ⟨l1, l2x, rfl⟩ := List.append_of_mem hmem
      have hnd := chain_nodup hc
      have hid_nl1 : id ∉ l1 := by
        rw [List.nodup_append] at hnd
        exact fun hx => hnd.2.2 hx (List.mem_cons_self id l2x)
      have herase : (l1 ++ id :: l2x).erase id = l1 ++ l2x := by
        rw [List.erase_append_right (id :: l2x) hid_nl1, List.erase_cons_head]
      rw [herase] at hv2
      obtain ⟨l3, hc3, hlen⟩ := ih (unlink_header s id) (l1 ++ l2x)
        (unlink_correct s id l1 l2x hc) hv2
      refine ⟨l3, hc3, ?_⟩
      simp only [countFrees, countAllocs, List.length_append, List.length_cons]
        at hlen ⊢
      omega
    | reallocMove oldId newId =>
      simp only [validOps, Bool.and_eq_true] at hv
      obtain ⟨⟨⟨hmem0, hnew0⟩, hne0⟩, hv2⟩ := hv
      have hmem : oldId ∈ l := by simpa using hmem0
      have hnewnl : newId ∉ l := by simpa using hnew0
      obtain ⟨l1, l2x, rfl⟩ := List.append_of_mem hmem
      have hnd := chain_nodup hc
      have hold_nl1 : oldId ∉ l1 := by
        rw [List.nodup_append] at hnd
        exact fun hx => hnd.2.2 hx (List.mem_cons_self oldId l2x)
      have hold_nl2 : oldId ∉ l2x := by
        rw [List.nodup_append, List.nodup_cons] at hnd
        exact hnd.2.1.1
      have hmap : (l1 ++ oldId :: l2x).map (fun x => if x = oldId then newId else x)
          = l1 ++ newId :: l2x := by
        rw [List.map_append, List.map_cons]
        have hmap1 : ∀ a ∈ l1, (fun x => if x = oldId then newId else x) a = id a := by
          intro a ha
          simp only [id_eq]
          exact if_neg fun he => hold_nl1 (by rw [← he]; exact ha)
        have hmap2 : ∀ a ∈ l2x, (fun x => if x = oldId then newId else x) a = id a := by
          intro a ha
          simp only [id_eq]
          exact if_neg fun he => hold_nl2 (by rw [← he]; exact ha)
        rw [List.map_congr_left hmap1, List.map_congr_left hmap2, List.map_id,
          List.map_id, if_pos rfl]
      rw [hmap] at hv2
      obtain ⟨l3, hc3, hlen⟩ := ih (swap_header s oldId newId) (l1 ++ newId :: l2x)
        (swap_correct s oldId newId l1 l2x hc hnewnl) hv2
      refine ⟨l3, hc3, ?_⟩
      simp only [countFrees, countAllocs, List.length_append, List.length_cons]
        at hlen ⊢
      omega

end Tracker

/-- C7: debug-tracker accounting.  Starting from the empty tracker
(`DEBUG_Head = null`, no header objects), any valid interleaving of
`general_allocate` links (`DEBUG_add_header` on the freshly encoded header),
`general_free` unlinks (`DEBUG_unlink_header`) and moving-`general_reallocate`
swaps (`DEBUG_swap_header`) leaves the global doubly-linked list spelling out a
unique list of headers whose length is exactly `N − M`, the number of
allocations minus the number of frees: every allocate links exactly one
header, every free unlinks exactly that allocation's header, and a moving
reallocation keeps exactly one header per live allocation. -/
theorem tracker_linked_header_count (ops : List Tracker.AllocOp)
    (hv : Tracker.validOps ops [] = true) :
    ∃ l, Tracker.chain (Tracker.runOps ops ⟨none, fun _ => none⟩).nodes
        (Tracker.runOps ops ⟨none, fun _ => none⟩).head none l ∧
      (∀ l2, Tracker.chain (Tracker.runOps ops ⟨none, fun _ => none⟩).nodes
        (Tracker.runOps ops ⟨none, fun _ => none⟩).head none l2 → l2 = l) ∧
      l.length + Tracker.countFrees ops = Tracker.countAllocs ops := by
  obtain ⟨l, hcl, hlen⟩ := Tracker.tracker_count ops ⟨none, fun _ => none⟩ []
    (Tracker.chain.nil none) hv
  refine ⟨l, hcl, ?_, ?_⟩
  · intro l2 hc2
    exact Tracker.chain_next_eq hc2 hcl
  · simpa using hlen

/-- C7 witness: two allocations, one free and one moving reallocation (a valid
sequence from the empty tracker) leave exactly 2 − 1 = 1 linked header. -/
theorem tracker_linked_header_count_witness :
    Tracker.validOps [.alloc 1, .alloc 2, .free 1, .reallocMove 2 3] [] = true ∧
    ∃ l, Tracker.chain
        (Tracker.runOps [.alloc 1, .alloc 2, .free 1, .reallocMove 2 3]
          ⟨none, fun _ => none⟩).nodes
        (Tracker.runOps [.alloc 1, .alloc 2, .free 1, .reallocMove 2 3]
          ⟨none, fun _ => none⟩).head none l ∧
      (∀ l2, Tracker.chain
        (Tracker.runOps [.alloc 1, .alloc 2, .free 1, .reallocMove 2 3]
          ⟨none, fun _ => none⟩).nodes
        (Tracker.runOps [.alloc 1, .alloc 2, .free 1, .reallocMove 2 3]
          ⟨none, fun _ => none⟩).head none l2 → l2 = l) ∧
      l.length + Tracker.countFrees [.alloc 1, .alloc 2, .free 1, .reallocMove 2 3]
        = Tracker.countAllocs [.alloc 1, .alloc 2, .free 1, .reallocMove 2 3] :=
  ⟨by decide,
    tracker_linked_header_count [.alloc 1, .alloc 2, .free 1, .reallocMove 2 3]
      (by decide)⟩
